import Mathlib

/-!
Verification development for the TypeScript-AST-to-ESTree conversion engine
(typescript-estree).

The development shallowly embeds the fragment of the converter exercised by the
claims under scrutiny:

* the data model: native compiler nodes (`TSNode`, with parent links encoded as
  explicit ancestor lists), produced interchange nodes (`ESNode`, a tag plus a
  byte range, line/column span and a list of named fields, mirroring the
  dynamic objects built by the implementation);
* the conversion engine for the node kinds the claims exercise, one case per
  `SyntaxKind` rule of the `Converter` class, plus the generic structural
  fallback (`deeplyCopy`) for unhandled kinds, the directive re-tagging pass,
  the node-correspondence maps, the `ast-converter` entry point and the
  top-level parser (option normalization and result assembly), for both the
  TypeScript entry point (`parser.ts`) and the legacy one (`parser.js`);
* helper utilities of the `node-utils` module and the recognized target tag
  list (`ast-node-types`), which are not part of the provided sources and are
  therefore modelled from the specification (each such definition carries a
  doc comment starting with "Modelled from the spec:").

Machine integers do not occur: all positions are byte offsets into the source
text, which the implementation also treats as exact integers.
-/

set_option maxHeartbeats 4000000
set_option maxRecDepth 4000
set_option linter.unusedVariables false

/-- Byte positions of a native node: `pos` is the full start (including leading
trivia, `getFullStart()`), `start` is the trivia-skipping start (`getStart()`),
`endP` is the end position (`getEnd()` / `.end`). -/
structure Span where
  pos : Nat
  start : Nat
  endP : Nat
  deriving DecidableEq, Repr

/-- Identity and position data shared by every native node.  `id` models the
JavaScript object identity of the node (reference equality `===` between nodes
of one tree is equality of `id`, which well-formed trees keep unique). -/
structure NodeMeta where
  id : Nat
  span : Span
  deriving DecidableEq, Repr

/-- The kind tags of the native taxonomy that the embedded fragment
distinguishes, including the operator-token kinds the conversion rules
inspect.  `UnknownSyn` stands for every kind without a dedicated conversion
rule (such nodes carry their real kind name as a string). -/
inductive SyntaxKind where
  | SourceFile
  | ExpressionStatement
  | ReturnStatement
  | Identifier
  | StringLiteral
  | BigIntLiteral
  | ArrayLiteralExpression
  | ObjectLiteralExpression
  | BinaryExpression
  | CallExpression
  | ParenthesizedExpression
  | ForInStatement
  | ForOfStatement
  | ShorthandPropertyAssignment
  | Decorator
  | TypeReference
  | AwaitKeyword
  | CommaToken
  | EqualsToken
  | PlusEqualsToken
  | PlusToken
  | AmpersandAmpersandToken
  | BarBarToken
  | UnknownSyn
  deriving DecidableEq, Repr

/-- An operator token (`node.operatorToken` of a binary expression, or an
`await` modifier). -/
structure Tok where
  kind : SyntaxKind
  span : Span
  deriving DecidableEq, Repr

/-- A parse diagnostic recorded by the external front end on the tree root
(`ast.parseDiagnostics`).  `message` models the optional `.message` property;
`messageText` the `.messageText` fallback the converter reads when `message`
is falsy. -/
structure Diagnostic where
  start : Nat
  message : Option String
  messageText : String
  deriving DecidableEq, Repr

mutual
/-- A native syntax-tree node of the fragment.  Structured constructors exist
exactly for the kinds with a dedicated conversion rule exercised by the
claims; `unknown` stands for any other kind and carries its kind name together
with its own enumerable fields, as `deeplyCopy` sees them.  Parent links are
not stored; the converter receives the ancestor chain explicitly. -/
inductive TSNode : Type where
  | sourceFile (m : NodeMeta) (statements : List TSNode) (endOfFileEnd : Nat)
      (moduleIndicator : Bool) (parseDiagnostics : List Diagnostic)
  | exprStmt (m : NodeMeta) (expression : TSNode)
  | returnStmt (m : NodeMeta) (expression : Option TSNode)
  | identifier (m : NodeMeta) (text : String)
  | stringLit (m : NodeMeta) (text : String)
  | bigIntLit (m : NodeMeta)
  | arrayLit (m : NodeMeta) (elements : List TSNode)
  | binaryExpr (m : NodeMeta) (operatorToken : Tok) (left right : TSNode)
  | callExpr (m : NodeMeta) (expression : TSNode) (arguments : List TSNode)
  | paren (m : NodeMeta) (expression : TSNode)
  | forIn (m : NodeMeta) (ini expr stmt : TSNode)
  | forOf (m : NodeMeta) (ini expr stmt : TSNode) (awaitModifier : Option Tok)
  | decorator (m : NodeMeta) (expression : TSNode)
  | unknown (m : NodeMeta) (kindName : String) (fields : List (String × TSVal))

/-- A field value of a native node, as the structural fallback converter sees
it: a nested node, a node array (which TypeScript decorates with its own
`pos`/`end`), or a leaf payload. -/
inductive TSVal : Type where
  | node (n : TSNode)
  | nodes (pos endP : Nat) (l : List TSNode)
  | str (s : String)
  | boolV (b : Bool)
  | numV (n : Int)
  | undef
end

/-- A line/column position: 1-indexed lines, 0-indexed columns. -/
structure Loc where
  line : Nat
  column : Nat
  deriving DecidableEq, Repr

mutual
/-- A field value of a produced interchange node: the JavaScript values the
converter stores on result objects. -/
inductive EVal : Type where
  | nullV
  | undefV
  | boolV (b : Bool)
  | str (s : String)
  | numV (n : Int)
  | node (e : ESNode)
  | nodes (l : List (Option ESNode))

/-- A produced interchange (ESTree) node: a `type` tag, a byte `range`, the
derived start/end line-column positions, and the remaining named fields of the
result object. -/
inductive ESNode : Type where
  | mk (type : String) (range : Nat × Nat) (locStart locEnd : Loc)
      (fields : List (String × EVal))
end

def ESNode.type : ESNode → String
  | .mk t _ _ _ _ => t

def ESNode.range : ESNode → Nat × Nat
  | .mk _ r _ _ _ => r

def ESNode.fields : ESNode → List (String × EVal)
  | .mk _ _ _ _ fs => fs

/-- Read a named field of a produced node (JavaScript property access; `none`
models an absent property, i.e. `undefined`). -/
def ESNode.getField (e : ESNode) (key : String) : Option EVal :=
  (e.fields.find? (fun kv => kv.1 == key)).map (fun kv => kv.2)

/-- Write a named field of a produced node (JavaScript property assignment:
replaces the value in place when the property exists, appends it otherwise). -/
def ESNode.setField (e : ESNode) (key : String) (v : EVal) : ESNode :=
  match e with
  | .mk t r ls le fs =>
    if fs.any (fun kv => kv.1 == key) then
      .mk t r ls le (fs.map (fun kv => if kv.1 == key then (key, v) else kv))
    else
      .mk t r ls le (fs ++ [(key, v)])

/-- The `type` field of a nested field value, when it holds a node. -/
def ESNode.childNode (e : ESNode) (key : String) : Option ESNode :=
  match e.getField key with
  | some (.node c) => some c
  | _ => none

/-- The `i`-th element of a node-array field, when present and non-null. -/
def ESNode.childElem (e : ESNode) (key : String) (i : Nat) : Option ESNode :=
  match e.getField key with
  | some (.nodes l) => (l.get? i).bind id
  | _ => none

/-- The node metadata of a native node. -/
def TSNode.meta : TSNode → NodeMeta
  | .sourceFile m _ _ _ _ => m
  | .exprStmt m _ => m
  | .returnStmt m _ => m
  | .identifier m _ => m
  | .stringLit m _ => m
  | .bigIntLit m => m
  | .arrayLit m _ => m
  | .binaryExpr m _ _ _ => m
  | .callExpr m _ _ => m
  | .paren m _ => m
  | .forIn m _ _ _ => m
  | .forOf m _ _ _ _ => m
  | .decorator m _ => m
  | .unknown m _ _ => m

/-- Object identity of a native node (models reference equality `===`). -/
def TSNode.nodeId (n : TSNode) : Nat := n.meta.id

/-- `getStart()` of a native node. -/
def TSNode.startPos (n : TSNode) : Nat := n.meta.span.start

/-- `.end` of a native node. -/
def TSNode.endPos (n : TSNode) : Nat := n.meta.span.endP

/-- `getFullStart()` of a native node. -/
def TSNode.fullStart (n : TSNode) : Nat := n.meta.span.pos

/-- The `SyntaxKind` of a native node (the `kind` discriminant). -/
def TSNode.kind : TSNode → SyntaxKind
  | .sourceFile _ _ _ _ _ => .SourceFile
  | .exprStmt _ _ => .ExpressionStatement
  | .returnStmt _ _ => .ReturnStatement
  | .identifier _ _ => .Identifier
  | .stringLit _ _ => .StringLiteral
  | .bigIntLit _ => .BigIntLiteral
  | .arrayLit _ _ => .ArrayLiteralExpression
  | .binaryExpr _ _ _ _ => .BinaryExpression
  | .callExpr _ _ _ => .CallExpression
  | .paren _ _ => .ParenthesizedExpression
  | .forIn _ _ _ _ => .ForInStatement
  | .forOf _ _ _ _ _ => .ForOfStatement
  | .decorator _ _ => .Decorator
  | .unknown _ _ _ => .UnknownSyn

/-- The name string `SyntaxKind[node.kind]` of a native node; `unknown` nodes
carry their real kind name. -/
def TSNode.kindName : TSNode → String
  | .sourceFile _ _ _ _ _ => "SourceFile"
  | .exprStmt _ _ => "ExpressionStatement"
  | .returnStmt _ _ => "ReturnStatement"
  | .identifier _ _ => "Identifier"
  | .stringLit _ _ => "StringLiteral"
  | .bigIntLit _ => "BigIntLiteral"
  | .arrayLit _ _ => "ArrayLiteralExpression"
  | .binaryExpr _ _ _ _ => "BinaryExpression"
  | .callExpr _ _ _ => "CallExpression"
  | .paren _ _ => "ParenthesizedExpression"
  | .forIn _ _ _ _ => "ForInStatement"
  | .forOf _ _ _ _ _ => "ForOfStatement"
  | .decorator _ _ => "Decorator"
  | .unknown _ name _ => name

/-- The parse diagnostics recorded on a tree root (empty for non-root nodes). -/
def TSNode.rootDiagnostics : TSNode → List Diagnostic
  | .sourceFile _ _ _ _ pd => pd
  | _ => []

/-- The `name` property of a native node, for the property-name check of the
string-literal rule.  In the embedded fragment only generic `unknown` nodes
carry a `name` child field. -/
def TSNode.nameField : TSNode → Option TSNode
  | .unknown _ _ fs =>
    match fs.find? (fun kv => kv.1 == "name") with
    | some (_, .node c) => some c
    | _ => none
  | _ => none

mutual
/-- All nodes of the subtree rooted at a node, in depth-first pre-order (the
node itself first). -/
def TSNode.subtree : TSNode → List TSNode
  | n@(.sourceFile _ sts _ _ _) => n :: TSNode.subtreeL sts
  | n@(.exprStmt _ e) => n :: TSNode.subtree e
  | n@(.returnStmt _ none) => [n]
  | n@(.returnStmt _ (some e)) => n :: TSNode.subtree e
  | n@(.identifier _ _) => [n]
  | n@(.stringLit _ _) => [n]
  | n@(.bigIntLit _) => [n]
  | n@(.arrayLit _ els) => n :: TSNode.subtreeL els
  | n@(.binaryExpr _ _ l r) => n :: (TSNode.subtree l ++ TSNode.subtree r)
  | n@(.callExpr _ e args) => n :: (TSNode.subtree e ++ TSNode.subtreeL args)
  | n@(.paren _ e) => n :: TSNode.subtree e
  | n@(.forIn _ i e s) => n :: (TSNode.subtree i ++ TSNode.subtree e ++ TSNode.subtree s)
  | n@(.forOf _ i e s _) => n :: (TSNode.subtree i ++ TSNode.subtree e ++ TSNode.subtree s)
  | n@(.decorator _ e) => n :: TSNode.subtree e
  | n@(.unknown _ _ fs) => n :: TSNode.subtreeF fs

def TSNode.subtreeL : List TSNode → List TSNode
  | [] => []
  | c :: rest => TSNode.subtree c ++ TSNode.subtreeL rest

def TSNode.subtreeF : List (String × TSVal) → List TSNode
  | [] => []
  | (_, v) :: rest => TSNode.subtreeV v ++ TSNode.subtreeF rest

def TSNode.subtreeV : TSVal → List TSNode
  | .node c => TSNode.subtree c
  | .nodes _ _ l => TSNode.subtreeL l
  | _ => []
end

/-- The object identities of all nodes of a subtree, in pre-order. -/
def TSNode.subtreeIds (n : TSNode) : List Nat := n.subtree.map TSNode.nodeId

/-- Substring of the source text between two byte offsets (the semantics of
`text.slice(a, b)` for the offsets the converter produces). -/
def strSlice (s : String) (a b : Nat) : String :=
  (((s.toList).drop a).take (b - a)).asString

/-- The semantics of `raw.slice(0, -1)`: all characters but the last. -/
def sliceDropLast (s : String) : String :=
  (s.toList.dropLast).asString

/-- The semantics of `raw.slice(1, -1)`: strips the first and last character
(the surrounding quotes of a string literal's raw text). -/
def sliceQuotes (s : String) : String :=
  ((s.toList.drop 1).dropLast).asString

/-- Modelled from the spec: `node-utils` is not part of the provided sources.
Line/column of a byte offset, derived from the source's line-break table:
1-indexed lines, 0-indexed columns. -/
def posToLineCol (code : String) (pos : Nat) : Loc :=
  let before := code.toList.take pos
  { line := 1 + before.count '\n',
    column := (before.reverse.takeWhile (fun c => c != '\n')).length }

/-- Modelled from the spec: `nodeUtils.getLocFor(start, end, ast)`, the
start/end line-column pair of a byte range. -/
def getLocFor (code : String) (start endP : Nat) : Loc × Loc :=
  (posToLineCol code start, posToLineCol code endP)

/-- Modelled from the spec: `nodeUtils.isComma(token)`, the comma-kind test on
the operator token of a binary expression. -/
def isComma (token : Tok) : Bool :=
  token.kind == .CommaToken

/-- Modelled from the spec: the assignment-operator test on operator-token
kinds (the `=` family of tokens). -/
def isAssignmentOperator (kind : SyntaxKind) : Bool :=
  kind == .EqualsToken || kind == .PlusEqualsToken

/-- Modelled from the spec: the logical-operator test on operator-token kinds
(`&&` and `||`). -/
def isLogicalOperator (kind : SyntaxKind) : Bool :=
  kind == .AmpersandAmpersandToken || kind == .BarBarToken

/-- Modelled from the spec: `nodeUtils.getBinaryExpressionType(operatorToken)`
classifies a binary expression by its operator token into assignment, logical
or plain binary expressions. -/
def getBinaryExpressionType (operatorToken : Tok) : String :=
  if isAssignmentOperator operatorToken.kind then "AssignmentExpression"
  else if isLogicalOperator operatorToken.kind then "LogicalExpression"
  else "BinaryExpression"

/-- Modelled from the spec: `nodeUtils.getTextForTokenKind(kind)`, the source
text of an operator token kind. -/
def getTextForTokenKind (kind : SyntaxKind) : String :=
  match kind with
  | .CommaToken => ","
  | .EqualsToken => "="
  | .PlusEqualsToken => "+="
  | .PlusToken => "+"
  | .AmpersandAmpersandToken => "&&"
  | .BarBarToken => "||"
  | _ => ""

/-- Modelled from the spec: `nodeUtils.findAncestorOfKind(node, kind)` walks
the parent chain of a node and returns the nearest ancestor of the given
kind.  The embedding passes the ancestor chain (nearest first) explicitly. -/
def findAncestorOfKind (ancestors : List TSNode) (kind : SyntaxKind) : Option TSNode :=
  ancestors.find? (fun p => p.kind == kind)

/-- Modelled from the spec: `nodeUtils.findFirstMatchingAncestor(node, pred)`,
returning both the nearest matching ancestor and that ancestor's own ancestor
chain (its parent pointers, which the implementation keeps on the node). -/
def findFirstMatchingAncestorW (ancestors : List TSNode) (pred : TSNode → Bool) :
    Option (TSNode × List TSNode) :=
  match ancestors with
  | [] => none
  | p :: rest =>
    if pred p then some (p, rest) else findFirstMatchingAncestorW rest pred

/-- Modelled from the spec: `nodeUtils.findChildOfKind(node, kind, ast)`, the
first node of the given kind found inside the given node (depth-first, the
node itself excluded). -/
def findChildOfKind (n : TSNode) (kind : SyntaxKind) : Option TSNode :=
  (n.subtree.drop 1).find? (fun c => c.kind == kind)

/-- Modelled from the spec: `nodeUtils.canContainDirective(node)` decides
whether a container's kind supports directives (the whole-file container, and
function-body blocks).  The embedded fragment contains the whole-file
container. -/
def canContainDirective (node : TSNode) : Bool :=
  match node.kind with
  | .SourceFile => true
  | _ => false

/-- Modelled from the spec: `nodeUtils.unescapeStringLiteralText(text)`
produces the escape-decoded text of a string literal.  The scanner of the
front end already supplies the cooked text, so on the fragment's literals
(which carry no escapes) the function is the identity on the cooked text. -/
def unescapeStringLiteralText (text : String) : String := text

/-- Modelled from the spec: `nodeUtils.findNextToken` scans forward
token-by-token for the closing angle bracket after a type-argument list; in
the embedding the closing bracket ends one position after the preceding
node. -/
def findNextTokenEnd (afterEnd : Nat) : Nat := afterEnd + 1

/-- Modelled from the spec: the recognized target tag taxonomy
(`AST_NODE_TYPES`), restricted to a representative subset containing every tag
the embedded fragment can produce plus language-extension tags used by the
structural fallback. -/
def astNodeTypes : List String :=
  ["Program", "ExpressionStatement", "ReturnStatement", "Identifier",
   "Literal", "BigIntLiteral", "ArrayExpression", "ArrayPattern",
   "SequenceExpression", "AssignmentExpression", "AssignmentPattern",
   "LogicalExpression", "BinaryExpression", "CallExpression",
   "ForInStatement", "ForOfStatement", "Property", "Decorator",
   "TSTypeAnnotation", "TSTypeParameterInstantiation",
   "TSTypeParameterDeclaration", "TSAnyKeyword", "TSParenthesizedType",
   "TSModuleBlock"]

/-- An error surfaced by the conversion engine: either the strict-mode failure
of the structural fallback, or a front-end syntax error re-raised by the
`ast-converter` entry (built by `nodeUtils.createError`, modelled from the
spec as carrying the byte index and message unmodified). -/
inductive ConvError where
  | unknownASTType (tag : String)
  | parseError (index : Nat) (message : String)
  deriving DecidableEq, Repr

/-- Modelled from the spec: `nodeUtils.createError(ast, start, message)`
surfaces the front end's own message and position, unmodified. -/
def createError (start : Nat) (message : String) : ConvError :=
  .parseError start message

/-- The two node-correspondence maps of the conversion engine, in insertion
order.  `WeakMap` keys are object identities: native nodes are keyed by their
identity `id`, produced nodes by the node value itself. -/
structure ASTMaps where
  tsNodeToESTreeNodeMap : List (Nat × ESNode)
  esTreeNodeToTSNodeMap : List (ESNode × Nat)

def ASTMaps.empty : ASTMaps := ⟨[], []⟩

/-- The two `WeakMap.set` calls performed after a produced node is finalized. -/
def insertASTMaps (m : ASTMaps) (nid : Nat) (t : ESNode) : ASTMaps :=
  { tsNodeToESTreeNodeMap := m.tsNodeToESTreeNodeMap ++ [(nid, t)],
    esTreeNodeToTSNodeMap := m.esTreeNodeToTSNodeMap ++ [(t, nid)] }

mutual
/-- Structural equality of produced nodes (used to model `WeakMap` lookup by
key on the target-to-native map). -/
def esNodeBEq : ESNode → ESNode → Bool
  | .mk t1 r1 ls1 le1 fs1, .mk t2 r2 ls2 le2 fs2 =>
    t1 == t2 && r1 == r2 && ls1 == ls2 && le1 == le2 && esFieldsBEq fs1 fs2
termination_by structural e => e

def esFieldsBEq : List (String × EVal) → List (String × EVal) → Bool
  | [], [] => true
  | (k1, v1) :: r1, (k2, v2) :: r2 => k1 == k2 && esValBEq v1 v2 && esFieldsBEq r1 r2
  | _, _ => false
termination_by structural l => l

def esValBEq : EVal → EVal → Bool
  | .nullV, .nullV => true
  | .undefV, .undefV => true
  | .boolV a, .boolV b => a == b
  | .str a, .str b => a == b
  | .numV a, .numV b => a == b
  | .node a, .node b => esNodeBEq a b
  | .nodes a, .nodes b => esOptListBEq a b
  | _, _ => false
termination_by structural v => v

def esOptListBEq : List (Option ESNode) → List (Option ESNode) → Bool
  | [], [] => true
  | some a :: r1, some b :: r2 => esNodeBEq a b && esOptListBEq r1 r2
  | none :: r1, none :: r2 => esOptListBEq r1 r2
  | _, _ => false
termination_by structural l => l
end

/-- `WeakMap.get` on the native-to-target map: `set` overwrites, so the most
recent insertion for a key wins. -/
def tsNodeMapGet (m : List (Nat × ESNode)) (key : Nat) : Option ESNode :=
  (m.reverse.find? (fun p => p.1 == key)).map (fun p => p.2)

/-- `WeakMap.get` on the target-to-native map. -/
def esNodeMapGet (m : List (ESNode × Nat)) (key : ESNode) : Option Nat :=
  (m.reverse.find? (fun p => esNodeBEq p.1 key)).map (fun p => p.2)

/-- The options bag handed to the `Converter` instance by the `ast-converter`
entry point. -/
structure ConvertAdditionalOptions where
  errorOnUnknownASTType : Bool
  useJSXTextNode : Bool
  shouldProvideParserServices : Bool
  deriving DecidableEq, Repr

/-- The converter's own state (`this`): the source text of the tree being
converted (`this.ast.text`) and the options bag. -/
structure ConverterState where
  code : String
  additionalOptions : ConvertAdditionalOptions
  deriving DecidableEq, Repr

/-- The default span-stamping of `createNode`: range and line/column positions
taken from the native node, as every rule of the fragment uses them. -/
def createNode (cfg : ConverterState) (n : TSNode) (type : String)
    (fields : List (String × EVal)) : ESNode :=
  let locs := getLocFor cfg.code n.startPos n.endPos
  .mk type (n.startPos, n.endPos) locs.1 locs.2 fields

/-- A converted child stored on a result object: `null` when the child was
absent or its conversion returned nothing. -/
def optNodeVal (r : Option ESNode) : EVal :=
  match r with
  | some t => .node t
  | none => .nullV

/-- The spliced `expressions` of a converted operand that is itself a
sequence expression. -/
def esSeqExpressions (t : ESNode) : List (Option ESNode) :=
  match t.getField "expressions" with
  | some (.nodes l) => l
  | _ => []

/-- One splicing step of the comma rule: a converted operand that is itself a
`SequenceExpression` contributes its own `expressions`
(`result.expressions.concat(left.expressions)`), any other operand is pushed
as a single element (`result.expressions.push(left)`). -/
def seqConcat (acc : List (Option ESNode)) (r : Option ESNode) : List (Option ESNode) :=
  match r with
  | some t =>
    if t.type == "SequenceExpression" then acc ++ esSeqExpressions t
    else acc ++ [some t]
  | none => acc ++ [none]

/-- The filter condition of the directive pass on one body entry:
a non-null expression statement whose expression is a `Literal` with a truthy
string `value`. -/
def isDirectiveCandidate (child : Option ESNode) : Bool :=
  match child with
  | none => false
  | some c =>
    c.type == "ExpressionStatement" &&
    (match c.getField "expression" with
     | some (.node e) =>
       e.type == "Literal" &&
         (match e.getField "value" with
          | some (.str s) => s != ""
          | _ => false)
     | _ => false)

/-- The raw text `child.expression.raw` a directive is de-duplicated by. -/
def directiveRaw (child : Option ESNode) : Option String :=
  match child with
  | some c =>
    (match c.getField "expression" with
     | some (.node e) =>
       (match e.getField "raw" with
        | some (.str r) => some r
        | _ => none)
     | _ => none)
  | none => none

/-- The `filter(...).forEach(...)` of `convertBodyExpressionsToDirectives` as
one ordered pass: each candidate whose raw text is not yet in `unique` gets a
`directive` field holding its unquoted text and registers its raw text;
everything else is kept unchanged.  (A candidate without a string raw text
cannot arise from converter output and is kept unchanged.) -/
def directivePass (unique : List String) : List (Option ESNode) → List (Option ESNode)
  | [] => []
  | child :: rest =>
    if isDirectiveCandidate child then
      match child, directiveRaw child with
      | some c, some raw =>
        if unique.contains raw then child :: directivePass unique rest
        else
          some (c.setField "directive" (.str (sliceQuotes raw)))
            :: directivePass (unique ++ [raw]) rest
      | _, _ => child :: directivePass unique rest
    else child :: directivePass unique rest

/-- `AbstractConverter.convertBodyExpressionsToDirectives`: re-tags leading
string-literal expression statements of a directive-supporting container. -/
def convertBodyExpressionsToDirectives (node : TSNode) (body : List (Option ESNode)) :
    List (Option ESNode) :=
  if canContainDirective node then directivePass [] body else body

/-- The destructuring classification computed inline by the array-literal
rule: `arrayIsInAssignment || arrayIsInForOf || arrayIsInForIn`, with
`arrayIsInAssignment` staying undefined (falsy) without a binary-expression
ancestor and forced false when the literal's parent is a shorthand property
assignment or a call expression. -/
def arrayLiteralIsPattern (anc : List TSNode) (n : TSNode) : Bool :=
  let arrayAssignNode := findAncestorOfKind anc .BinaryExpression
  let arrayIsInForOf :=
    match anc.head? with
    | some p => p.kind == SyntaxKind.ForOfStatement
    | none => false
  let arrayIsInForIn :=
    match anc.head? with
    | some p => p.kind == SyntaxKind.ForInStatement
    | none => false
  let arrayIsInAssignment :=
    match arrayAssignNode with
    | none => false
    | some assign =>
      match anc.head? with
      | none => false
      | some parent0 =>
        if parent0.kind == SyntaxKind.ShorthandPropertyAssignment then false
        else if parent0.kind == SyntaxKind.CallExpression then false
        else
          match assign with
          | .binaryExpr _ operatorToken left _ =>
            if getBinaryExpressionType operatorToken == "AssignmentExpression" then
              (match findChildOfKind left .ArrayLiteralExpression with
               | some c => c.nodeId == n.nodeId
               | none => false) || left.nodeId == n.nodeId
            else false
          | _ => false
  arrayIsInAssignment || arrayIsInForOf || arrayIsInForIn

/-- The reclassification condition computed inline by the binary-expression
rule for an assignment nested in a destructured array or object target
(`upperArrayIsInAssignment`). -/
def assignmentIsInDestructuredTarget (anc : List TSNode) : Bool :=
  let upper := findFirstMatchingAncestorW anc (fun p =>
    p.kind == SyntaxKind.ArrayLiteralExpression ||
    p.kind == SyntaxKind.ObjectLiteralExpression)
  match upper with
  | none => false
  | some (upperArrayNode, rest) =>
    match findAncestorOfKind rest .BinaryExpression with
    | none => false
    | some assign =>
      match assign with
      | .binaryExpr _ _ aleft _ =>
        if aleft.nodeId == upperArrayNode.nodeId then true
        else
          (match findChildOfKind aleft .ArrayLiteralExpression with
           | some c => c.nodeId == upperArrayNode.nodeId
           | none => false)
      | _ => false

/-- The tail of `AbstractConverter.convert`: after the per-kind rule has
produced its result, a non-null produced node is registered in both
correspondence maps when parser services were requested. -/
def registerMaps (cfg : ConverterState) (n : TSNode)
    (res : Except ConvError (Option ESNode × ASTMaps)) :
    Except ConvError (Option ESNode × ASTMaps) :=
  match res with
  | .error err => .error err
  | .ok (result, m1) =>
    match result with
    | some t =>
      if cfg.additionalOptions.shouldProvideParserServices then
        .ok (some t, insertASTMaps m1 n.nodeId t)
      else .ok (some t, m1)
    | none => .ok (none, m1)

/-- The excluded-key set of `deeplyCopy`
(`/^(?:_children|kind|parent|pos|end|flags|modifierFlagsCache|jsDoc)$/`). -/
def deeplyCopyExcludedKeys : List String :=
  ["_children", "kind", "parent", "pos", "end", "flags", "modifierFlagsCache", "jsDoc"]

mutual
/-- The conversion engine on one native node:
the per-kind rules of the `Converter` class (one match arm per `SyntaxKind`
case), the structural fallback `deeplyCopy` for unhandled kinds, and the
registration of both correspondence maps performed by `AbstractConverter.convert`
after the produced node is finalized.  `anc` is the ancestor chain (nearest
first), `parentOv` the explicit `parent` argument (`parent || node.parent`). -/
def convertNode (cfg : ConverterState) (anc : List TSNode) (parentOv : Option TSNode)
    (inTypeMode : Bool) (n : TSNode) (m : ASTMaps) :
    Except ConvError (Option ESNode × ASTMaps) :=
  registerMaps cfg n (match n with
    | .sourceFile _ statements endOfFileEnd moduleInd _ =>
      (match convertList cfg (n :: anc) false statements m with
       | .error err => .error err
       | .ok (stmts, m2) =>
         -- only non-null converted statements are pushed into the body
         let body := (stmts.filterMap id).map some
         let body := convertBodyExpressionsToDirectives n body
         -- range[1] is widened to the end of the end-of-file token
         let locs := getLocFor cfg.code n.startPos endOfFileEnd
         .ok (some (.mk "Program" (n.startPos, endOfFileEnd) locs.1 locs.2
           [("body", .nodes body),
            ("sourceType", .str (if moduleInd then "module" else "script"))]), m2))
    | .exprStmt _ expression =>
      (match convertNode cfg (n :: anc) none false expression m with
       | .error err => .error err
       | .ok (r, m2) =>
         .ok (some (createNode cfg n "ExpressionStatement"
           [("expression", optNodeVal r)]), m2))
    | .returnStmt _ expression =>
      (match (match expression with
         | none => (.ok (none, m) : Except ConvError (Option ESNode × ASTMaps))
         | some c => convertNode cfg (n :: anc) none false c m) with
       | .error err => .error err
       | .ok (r, m2) =>
         .ok (some (createNode cfg n "ReturnStatement"
           [("argument", optNodeVal r)]), m2))
    | .identifier _ text =>
      .ok (some (createNode cfg n "Identifier" [("name", .str text)]), m)
    | .stringLit _ text =>
      -- result.raw is sliced from the source text over the node's range;
      -- a string literal serving as a property name keeps its cooked text,
      -- any other string literal is unescaped
      let raw := strSlice cfg.code n.startPos n.endPos
      -- the dispatcher resolves the parent as `parent || node.parent`
      let parent := match parentOv with
        | some p => some p
        | none => anc.head?
      let value :=
        match parent with
        | some p =>
          (match p.nameField with
           | some nm =>
             if nm.nodeId == n.nodeId then text else unescapeStringLiteralText text
           | none => unescapeStringLiteralText text)
        | none => unescapeStringLiteralText text
      .ok (some (createNode cfg n "Literal"
        [("raw", .str raw), ("value", .str value)]), m)
    | .bigIntLit _ =>
      -- raw is the exact source slice, value strips the trailing `n` suffix
      let raw := strSlice cfg.code n.startPos n.endPos
      .ok (some (createNode cfg n "BigIntLiteral"
        [("raw", .str raw), ("value", .str (sliceDropLast raw))]), m)
    | .arrayLit _ elements =>
      (match convertList cfg (n :: anc) false elements m with
       | .error err => .error err
       | .ok (els, m2) =>
         if arrayLiteralIsPattern anc n then
           .ok (some (createNode cfg n "ArrayPattern" [("elements", .nodes els)]), m2)
         else
           .ok (some (createNode cfg n "ArrayExpression" [("elements", .nodes els)]), m2))
    | .binaryExpr _ operatorToken left right =>
      if isComma operatorToken then
        (match convertNode cfg (n :: anc) none false left m with
         | .error err => .error err
         | .ok (leftR, m2) =>
           match convertNode cfg (n :: anc) none false right m2 with
           | .error err => .error err
           | .ok (rightR, m3) =>
             let exprs := seqConcat (seqConcat [] leftR) rightR
             .ok (some (createNode cfg n "SequenceExpression"
               [("expressions", .nodes exprs)]), m3))
      else
        (match convertNode cfg (n :: anc) none false left m with
         | .error err => .error err
         | .ok (leftR, m2) =>
           match convertNode cfg (n :: anc) none false right m2 with
           | .error err => .error err
           | .ok (rightR, m3) =>
             let ty := getBinaryExpressionType operatorToken
             if ty == "AssignmentExpression" then
               -- an assignment nested inside a destructured array or object
               -- target is reclassified as an assignment pattern
               if assignmentIsInDestructuredTarget anc then
                 -- result.type = AssignmentPattern and the operator is deleted
                 .ok (some (createNode cfg n "AssignmentPattern"
                   [("left", optNodeVal leftR), ("right", optNodeVal rightR)]), m3)
               else
                 .ok (some (createNode cfg n ty
                   [("operator", .str (getTextForTokenKind operatorToken.kind)),
                    ("left", optNodeVal leftR), ("right", optNodeVal rightR)]), m3)
             else
               .ok (some (createNode cfg n ty
                 [("operator", .str (getTextForTokenKind operatorToken.kind)),
                  ("left", optNodeVal leftR), ("right", optNodeVal rightR)]), m3))
    | .callExpr _ expression arguments =>
      (match convertNode cfg (n :: anc) none false expression m with
       | .error err => .error err
       | .ok (calleeR, m2) =>
         match convertList cfg (n :: anc) false arguments m2 with
         | .error err => .error err
         | .ok (args, m3) =>
           -- the embedded call nodes carry no type arguments, so the
           -- typeParameters branch of the call rule is not reachable
           .ok (some (createNode cfg n "CallExpression"
             [("callee", optNodeVal calleeR), ("arguments", .nodes args)]), m3))
    | .paren _ expression =>
      -- the parenthesized-expression rule is a pass-through:
      -- return this.convert(node.expression, parent), with the parent
      -- resolved by the dispatcher as `parent || node.parent`
      convertNode cfg (n :: anc)
        (match parentOv with
         | some p => some p
         | none => anc.head?) false expression m
    | .forIn _ ini expr stmt =>
      (match convertNode cfg (n :: anc) none false ini m with
       | .error err => .error err
       | .ok (iniR, m2) =>
         match convertNode cfg (n :: anc) none false expr m2 with
         | .error err => .error err
         | .ok (exprR, m3) =>
           match convertNode cfg (n :: anc) none false stmt m3 with
           | .error err => .error err
           | .ok (stmtR, m4) =>
             .ok (some (createNode cfg n n.kindName
               [("left", optNodeVal iniR), ("right", optNodeVal exprR),
                ("body", optNodeVal stmtR)]), m4))
    | .forOf _ ini expr stmt awaitModifier =>
      (match convertNode cfg (n :: anc) none false ini m with
       | .error err => .error err
       | .ok (iniR, m2) =>
         match convertNode cfg (n :: anc) none false expr m2 with
         | .error err => .error err
         | .ok (exprR, m3) =>
           match convertNode cfg (n :: anc) none false stmt m3 with
           | .error err => .error err
           | .ok (stmtR, m4) =>
             .ok (some (createNode cfg n n.kindName
               [("left", optNodeVal iniR), ("right", optNodeVal exprR),
                ("body", optNodeVal stmtR),
                ("await", .boolV (match awaitModifier with
                  | some t => t.kind == SyntaxKind.AwaitKeyword
                  | none => false))]), m4))
    | .decorator _ expression =>
      -- a decorator node reached outside convertDecorators has no dedicated
      -- rule and falls back to deeplyCopy (its one enumerable child field is
      -- its expression)
      let customType := "TS" ++ n.kindName
      if cfg.additionalOptions.errorOnUnknownASTType &&
          !(astNodeTypes.contains customType) then
        .error (.unknownASTType customType)
      else
        (match convertNode cfg (n :: anc) none false expression m with
         | .error err => .error err
         | .ok (r, m2) =>
           .ok (some (createNode cfg n customType [("expression", optNodeVal r)]), m2))
    | .unknown _ kindName fields =>
      -- deeplyCopy: the structural fallback for node kinds without a rule
      let customType := "TS" ++ kindName
      if cfg.additionalOptions.errorOnUnknownASTType &&
          !(astNodeTypes.contains customType) then
        .error (.unknownASTType customType)
      else
        (match convertFields cfg (n :: anc) n fields m with
         | .error err => .error err
         | .ok (efs, m2) => .ok (some (createNode cfg n customType efs), m2)) :
    Except ConvError (Option ESNode × ASTMaps))
termination_by structural n

/-- Sequential conversion of a node array (`map` over children, threading the
correspondence maps in order). -/
def convertList (cfg : ConverterState) (anc : List TSNode) (inTypeMode : Bool) :
    List TSNode → ASTMaps → Except ConvError (List (Option ESNode) × ASTMaps)
  | [], m => .ok ([], m)
  | h :: t, m =>
    match convertNode cfg anc none inTypeMode h m with
    | .error err => .error err
    | .ok (r, m1) =>
      match convertList cfg anc inTypeMode t m1 with
      | .error err => .error err
      | .ok (rs, m2) => .ok (r :: rs, m2)
termination_by structural l => l

/-- `AbstractConverter.convertDecorators`: each decorator becomes a
`Decorator` node wrapping its converted expression. -/
def convertDecorators (cfg : ConverterState) (anc : List TSNode) :
    List TSNode → ASTMaps → Except ConvError (List ESNode × ASTMaps)
  | [], m => .ok ([], m)
  | d :: rest, m =>
    match (match d with
      | .decorator _ expression => convertNode cfg anc none false expression m
      | _ =>
        -- a non-decorator entry has no expression child: convertChild of an
        -- absent child returns null
        (.ok (none, m) : Except ConvError (Option ESNode × ASTMaps))) with
    | .error err => .error err
    | .ok (r, m2) =>
      match convertDecorators cfg anc rest m2 with
      | .error err => .error err
      | .ok (ds, m3) =>
        .ok (createNode cfg d "Decorator" [("expression", optNodeVal r)] :: ds, m3)
termination_by structural l => l

/-- One field of `deeplyCopy`: `type`, `typeArguments`, `typeParameters` and
`decorators` are special-cased with intermediary wrapper nodes; arrays and
nested nodes are converted recursively, leaf values copied as-is.  The result
is the (possibly empty) list of result-object entries the field contributes. -/
def convertFieldEntry (cfg : ConverterState) (anc : List TSNode) (node : TSNode)
    (key : String) (v : TSVal) (m : ASTMaps) :
    Except ConvError (List (String × EVal) × ASTMaps) :=
  match v with
  | .node child =>
    if key == "type" then
      -- convertTypeAnnotation: a TSTypeAnnotation wrapper spanning from one
      -- before the child's full start to the child's end
      (match convertNode cfg anc none true child m with
       | .error err => .error err
       | .ok (r, m2) =>
         let s := child.fullStart - 1
         let locs := getLocFor cfg.code s child.endPos
         .ok ([("typeAnnotation",
           EVal.node (.mk "TSTypeAnnotation" (s, child.endPos) locs.1 locs.2
             [("typeAnnotation", optNodeVal r)]))], m2))
    else if key == "typeArguments" then .ok ([("typeParameters", EVal.nullV)], m)
    else if key == "typeParameters" then .ok ([("typeParameters", EVal.nullV)], m)
    else if key == "decorators" then .ok ([], m)
    else
      -- node[key].kind is set, so the field is converted as a child
      (match convertNode cfg anc none false child m with
       | .error err => .error err
       | .ok (r, m2) => .ok ([(key, optNodeVal r)], m2))
  | .nodes pos endP l =>
    if key == "type" then .ok ([("typeAnnotation", EVal.nullV)], m)
    else if key == "typeArguments" then
      -- convertTypeArgumentsToTypeParameters: a TSTypeParameterInstantiation
      -- wrapper; the end position scans for the closing angle bracket when
      -- the parent is a call expression or type reference
      (match convertList cfg anc true l m with
       | .error err => .error err
       | .ok (rs, m2) =>
         let s := pos - 1
         let e :=
           match l.getLast? with
           | some lastArg =>
             if node.kind == SyntaxKind.CallExpression ||
                 node.kind == SyntaxKind.TypeReference then
               findNextTokenEnd lastArg.endPos
             else endP + 1
           | none => endP + 1
         let locs := getLocFor cfg.code s e
         .ok ([("typeParameters",
           EVal.node (.mk "TSTypeParameterInstantiation" (s, e) locs.1 locs.2
             [("params", .nodes rs)]))], m2))
    else if key == "typeParameters" then
      -- convertTSTypeParametersToTypeParametersDeclaration
      (match convertList cfg anc true l m with
       | .error err => .error err
       | .ok (rs, m2) =>
         let range :=
           match l.head?, l.getLast? with
           | some firstP, some lastP =>
             (firstP.fullStart - 1, findNextTokenEnd lastP.endPos)
           | _, _ => (pos - 1, endP + 1)
         let locs := getLocFor cfg.code range.1 range.2
         .ok ([("typeParameters",
           EVal.node (.mk "TSTypeParameterDeclaration" range locs.1 locs.2
             [("params", .nodes rs)]))], m2))
    else if key == "decorators" then
      match l with
      | d :: ds =>
        (match convertDecorators cfg anc (d :: ds) m with
         | .error err => .error err
         | .ok (rs, m2) =>
           -- an empty converted list would be omitted from the result
           (match rs with
            | [] => .ok ([], m2)
            | _ => .ok ([("decorators", EVal.nodes (rs.map some))], m2)))
      | [] => .ok ([], m)
    else
      (match convertList cfg anc false l m with
       | .error err => .error err
       | .ok (rs, m2) => .ok ([(key, EVal.nodes rs)], m2))
  | .str s =>
    if key == "type" then .ok ([("typeAnnotation", EVal.nullV)], m)
    else if key == "typeArguments" then .ok ([("typeParameters", EVal.nullV)], m)
    else if key == "typeParameters" then .ok ([("typeParameters", EVal.nullV)], m)
    else if key == "decorators" then .ok ([], m)
    else .ok ([(key, EVal.str s)], m)
  | .boolV b =>
    if key == "type" then .ok ([("typeAnnotation", EVal.nullV)], m)
    else if key == "typeArguments" then .ok ([("typeParameters", EVal.nullV)], m)
    else if key == "typeParameters" then .ok ([("typeParameters", EVal.nullV)], m)
    else if key == "decorators" then .ok ([], m)
    else .ok ([(key, EVal.boolV b)], m)
  | .numV i =>
    if key == "type" then .ok ([("typeAnnotation", EVal.nullV)], m)
    else if key == "typeArguments" then .ok ([("typeParameters", EVal.nullV)], m)
    else if key == "typeParameters" then .ok ([("typeParameters", EVal.nullV)], m)
    else if key == "decorators" then .ok ([], m)
    else .ok ([(key, EVal.numV i)], m)
  | .undef =>
    if key == "type" then .ok ([("typeAnnotation", EVal.nullV)], m)
    else if key == "typeArguments" then .ok ([("typeParameters", EVal.nullV)], m)
    else if key == "typeParameters" then .ok ([("typeParameters", EVal.nullV)], m)
    else if key == "decorators" then .ok ([], m)
    else .ok ([(key, EVal.undefV)], m)
termination_by structural v

/-- The field-copy loop of `deeplyCopy`: every own field except the excluded
keys is copied (the `filter` over `Object.keys` is fused into the loop as a
per-key skip), each through `convertFieldEntry`. -/
def convertFields (cfg : ConverterState) (anc : List TSNode) (node : TSNode) :
    List (String × TSVal) → ASTMaps →
    Except ConvError (List (String × EVal) × ASTMaps)
  | [], m => .ok ([], m)
  | (key, v) :: rest, m =>
    if deeplyCopyExcludedKeys.contains key then convertFields cfg anc node rest m
    else
      match convertFieldEntry cfg anc node key v m with
      | .error err => .error err
      | .ok (entry, m1) =>
        match convertFields cfg anc node rest m1 with
        | .error err => .error err
        | .ok (entries, m2) => .ok (entry ++ entries, m2)
termination_by structural l => l
end

/-- `AbstractConverter.convert`: the conversion entry point, exiting early
with `null` for an absent node, and otherwise dispatching on the node's kind
and registering the correspondence maps. -/
def convert (cfg : ConverterState) (anc : List TSNode) (parentOv : Option TSNode)
    (inTypeMode : Bool) (node : Option TSNode) (m : ASTMaps) :
    Except ConvError (Option ESNode × ASTMaps) :=
  match node with
  | none => .ok (none, m)
  | some nd => convertNode cfg anc parentOv inTypeMode nd m

/-- Modelled from the spec: token extraction is an excluded external
collaborator (mechanical, not algorithmically interesting); the embedding
records only that a token list gets attached. -/
def convertTokens (ast : TSNode) : List (Option ESNode) := []

/-- Modelled from the spec: comment extraction is an excluded external
collaborator; the embedding records only that a comment list gets attached. -/
def convertComments (ast : TSNode) (code : String) : List (Option ESNode) := []

/-- `convertError` of the `ast-converter` module: wraps a front-end diagnostic
into a syntax error carrying the diagnostic's own position and message
(`error.message || error.messageText`). -/
def convertError (error : Diagnostic) : ConvError :=
  createError error.start
    (match error.message with
     | some s => if s == "" then error.messageText else s
     | none => error.messageText)

/-- The per-parse option bag of the orchestrator (`extra`), with the fields
the embedded fragment consumes.  `tokens` models whether the token array was
initialized (`null` versus `[]`; an initialized array is truthy). -/
structure Extra where
  range : Bool
  loc : Bool
  tokens : Bool
  comment : Bool
  jsx : Bool
  useJSXTextNode : Bool
  errorOnUnknownASTType : Bool
  project : List String
  code : String
  deriving DecidableEq, Repr

/-- The result of the `ast-converter` entry point: the produced tree and,
only when parser services were requested, the correspondence maps. -/
structure ASTConverterResult where
  estree : Option ESNode
  astMaps : Option ASTMaps

/-- The `ast-converter` default export: aborts with the first front-end parse
diagnostic before any node conversion, otherwise runs the converter over the
tree root, optionally attaches tokens and comments, and hands back the maps
exactly when services were requested. -/
def astConverter (ast : TSNode) (extra : Extra) (shouldProvideParserServices : Bool) :
    Except ConvError ASTConverterResult :=
  match ast.rootDiagnostics with
  | d :: _ => .error (convertError d)
  | [] =>
    let cfg : ConverterState := {
      code := extra.code,
      additionalOptions := {
        errorOnUnknownASTType := extra.errorOnUnknownASTType,
        useJSXTextNode := extra.useJSXTextNode,
        shouldProvideParserServices := shouldProvideParserServices } }
    match convert cfg [] none false (some ast) ASTMaps.empty with
    | .error err => .error err
    | .ok (estree0, maps) =>
      let estree1 :=
        if extra.tokens then
          estree0.map (fun t => t.setField "tokens" (.nodes (convertTokens ast)))
        else estree0
      let estree2 :=
        if extra.comment then
          estree1.map (fun t => t.setField "comments" (.nodes (convertComments ast extra.code)))
        else estree1
      .ok { estree := estree2,
            astMaps := if shouldProvideParserServices then some maps else none }

/-- A JavaScript option value, as the parser's option normalization sees it:
`ecmaObj` stands for an object value carrying a `jsx` property. -/
inductive JSVal where
  | undef
  | nullV
  | boolV (b : Bool)
  | str (s : String)
  | numV (n : Int)
  | arr (l : List JSVal)
  | ecmaObj (jsx : JSVal)
  | fn

mutual
/-- Structural equality of JavaScript option values (the strict comparisons
of the option block). -/
def jsValBEq : JSVal → JSVal → Bool
  | .undef, .undef => true
  | .nullV, .nullV => true
  | .boolV a, .boolV b => a == b
  | .str a, .str b => a == b
  | .numV a, .numV b => a == b
  | .arr a, .arr b => jsValListBEq a b
  | .ecmaObj a, .ecmaObj b => jsValBEq a b
  | .fn, .fn => true
  | _, _ => false

def jsValListBEq : List JSVal → List JSVal → Bool
  | [], [] => true
  | a :: r1, b :: r2 => jsValBEq a b && jsValListBEq r1 r2
  | _, _ => false
end

instance : BEq JSVal := ⟨jsValBEq⟩

/-- JavaScript truthiness of an option value. -/
def jsTruthy : JSVal → Bool
  | .undef => false
  | .nullV => false
  | .boolV b => b
  | .str s => s != ""
  | .numV n => n != 0
  | .arr _ => true
  | .ecmaObj _ => true
  | .fn => true

/-- The check `typeof value === 'boolean' && value`. -/
def isBoolTrue (v : JSVal) : Bool := v == .boolV true

/-- Modelled from the spec: the `String(value)` coercion parser.js applies to
the `source` option. -/
def jsToString : JSVal → String
  | .undef => "undefined"
  | .nullV => "null"
  | .boolV b => if b then "true" else "false"
  | .str s => s
  | .numV n => toString n
  | .arr _ => ""
  | .ecmaObj _ => "[object Object]"
  | .fn => "function"

/-- The caller-supplied options object of `parse`, with every recognized
option as a raw JavaScript value. -/
structure ParserOptions where
  range : JSVal
  loc : JSVal
  tokens : JSVal
  comment : JSVal
  jsx : JSVal
  ecmaFeatures : JSVal
  errorOnUnknownASTType : JSVal
  useJSXTextNode : JSVal
  loggerFn : JSVal
  project : JSVal
  tolerant : JSVal
  source : JSVal

/-- An options object with every option omitted. -/
def ParserOptions.allUndefined : ParserOptions :=
  { range := .undef, loc := .undef, tokens := .undef, comment := .undef,
    jsx := .undef, ecmaFeatures := .undef, errorOnUnknownASTType := .undef,
    useJSXTextNode := .undef, loggerFn := .undef, project := .undef,
    tolerant := .undef, source := .undef }

/-- The `project` option normalization shared by both parsers: a string
becomes a one-element list, an array whose entries are all strings is taken
as-is, anything else keeps the reset default (the empty list). -/
def normalizeProject (v : JSVal) : List String :=
  match v with
  | .str s => [s]
  | .arr l =>
    if l.all (fun p => match p with | .str _ => true | _ => false) then
      l.filterMap (fun p => match p with | .str s => some s | _ => none)
    else []
  | _ => []

/-- The option-normalization block of `generateAST` in parser.ts: the reset
`extra` defaults, overwritten by recognized options.  Every boolean option
(range, loc, tokens, comment, jsx both directly and through `ecmaFeatures`,
errorOnUnknownASTType, useJSXTextNode) is accepted only under
`typeof option === 'boolean'` and only when `true`.  The later
`extra.code = code` assignment is folded in. -/
def generateASTExtraTs (code : String) (options : Option ParserOptions) : Extra :=
  let base : Extra := {
    range := false, loc := false, tokens := false, comment := false,
    jsx := false, useJSXTextNode := false, errorOnUnknownASTType := false,
    project := [], code := code }
  match options with
  | none => base
  | some o =>
    { base with
      range := isBoolTrue o.range,
      loc := isBoolTrue o.loc,
      tokens := isBoolTrue o.tokens,
      comment := isBoolTrue o.comment,
      jsx := isBoolTrue o.jsx ||
        (match o.ecmaFeatures with
         | .ecmaObj j => isBoolTrue j
         | _ => false),
      errorOnUnknownASTType := isBoolTrue o.errorOnUnknownASTType,
      useJSXTextNode := isBoolTrue o.useJSXTextNode,
      project := normalizeProject o.project }

/-- The maps member of a `generateAST` result: each map present only in
service mode, `undefined` otherwise. -/
structure GenerateASTMaps where
  esTreeNodeToTSNodeMap : Option (List (ESNode × Nat))
  tsNodeToESTreeNodeMap : Option (List (Nat × ESNode))

/-- The result object assembled by `generateAST`. -/
structure GenerateASTResult where
  estree : Option ESNode
  program : Option Nat
  astMaps : GenerateASTMaps

/-- `generateAST` of parser.ts: normalizes the options into `extra`, decides
service mode from the resolved project list, invokes the conversion engine,
and assembles the result; the program handle and both maps are `undefined`
outside service mode.  The external front end's outputs (the native tree and
the program handle) enter as parameters, the engine receives the service flag
it is constructed with. -/
def generateAST (code : String) (options : Option ParserOptions) (ast : TSNode)
    (program : Nat) : Except ConvError GenerateASTResult :=
  let extra := generateASTExtraTs code options
  let shouldProvideParserServices := !extra.project.isEmpty
  match astConverter ast extra shouldProvideParserServices with
  | .error err => .error err
  | .ok out =>
    .ok { estree := out.estree,
          program := if shouldProvideParserServices then some program else none,
          astMaps :=
            if shouldProvideParserServices then
              match out.astMaps with
              | some maps =>
                { esTreeNodeToTSNodeMap := some maps.esTreeNodeToTSNodeMap,
                  tsNodeToESTreeNodeMap := some maps.tsNodeToESTreeNodeMap }
              | none =>
                { esTreeNodeToTSNodeMap := none, tsNodeToESTreeNodeMap := none }
            else
              { esTreeNodeToTSNodeMap := none, tsNodeToESTreeNodeMap := none } }

/-- The services member of a `parse` result. -/
structure ParserServices where
  program : Option Nat
  esTreeNodeToTSNodeMap : Option (List (ESNode × Nat))
  tsNodeToESTreeNodeMap : Option (List (Nat × ESNode))

/-- The result of the public `parse` entry point. -/
structure ParseResult where
  ast : Option ESNode
  services : ParserServices

/-- The public `parse` entry point: wraps a `generateAST` result into the
tree-plus-services shape. -/
def parse (code : String) (options : Option ParserOptions) (ast : TSNode)
    (program : Nat) : Except ConvError ParseResult :=
  match generateAST code options ast program with
  | .error err => .error err
  | .ok result =>
    .ok { ast := result.estree,
          services := {
            program := result.program,
            esTreeNodeToTSNodeMap := result.astMaps.esTreeNodeToTSNodeMap,
            tsNodeToESTreeNodeMap := result.astMaps.tsNodeToESTreeNodeMap } }

/-- The `extra` bag of the legacy parser.js, with the fields its option block
writes.  `ecmaFeaturesJsx` holds the raw `ecmaFeatures.jsx` value, which
parser.js copies through without a type check. -/
structure ExtraJs where
  range : Bool
  loc : Bool
  source : Option String
  tokens : Bool
  comment : Bool
  tolerant : Bool
  ecmaFeaturesJsx : JSVal
  errorOnUnknownASTType : Bool
  useJSXTextNode : Bool
  project : List String

/-- The option-normalization block of `generateAST` in the legacy parser.js:
range, loc, tokens, comment, tolerant and useJSXTextNode are accepted only as
exact boolean `true`; `errorOnUnknownASTType` by truthiness; and the
`ecmaFeatures.jsx` property is passed through unchecked whenever
`ecmaFeatures` is a truthy object. -/
def generateASTExtraJs (options : Option ParserOptions) : ExtraJs :=
  let base : ExtraJs := {
    range := false, loc := false, source := none, tokens := false,
    comment := false, tolerant := false, ecmaFeaturesJsx := .undef,
    errorOnUnknownASTType := false, useJSXTextNode := false, project := [] }
  match options with
  | none => base
  | some o =>
    let locB := isBoolTrue o.loc
    { base with
      range := isBoolTrue o.range,
      loc := locB,
      source :=
        if locB && o.source != .nullV && o.source != .undef then
          some (jsToString o.source)
        else none,
      tokens := isBoolTrue o.tokens,
      comment := isBoolTrue o.comment,
      tolerant := isBoolTrue o.tolerant,
      ecmaFeaturesJsx :=
        (match o.ecmaFeatures with
         | .ecmaObj j => j
         | _ => .undef),
      errorOnUnknownASTType := jsTruthy o.errorOnUnknownASTType,
      useJSXTextNode := isBoolTrue o.useJSXTextNode,
      project := normalizeProject o.project }

/-- The synthetic filename chosen by `createNewProgram` of parser.js: the JSX
compilation mode takes effect through the truthiness of the raw
`extra.ecmaFeatures.jsx` value. -/
def createNewProgramFilenameJs (extra : ExtraJs) : String :=
  if jsTruthy extra.ecmaFeaturesJsx then "estree.tsx" else "estree.ts"

/-- The synthetic filename chosen by `createNewProgram` of parser.ts (driven
by the boolean `extra.jsx`). -/
def createNewProgramFilenameTs (extra : Extra) : String :=
  if extra.jsx then "estree.tsx" else "estree.ts"

/-- Immediate elements of a sequence-expression field are themselves not
sequence expressions. -/
def noSeqElems (l : List (Option ESNode)) : Bool :=
  l.all (fun o =>
    match o with
    | some e => !(e.type == "SequenceExpression")
    | none => true)

/-- The flattening condition on one produced node's own `expressions` field
(trivially true when the node has no node-array `expressions` field). -/
def seqElemsOk (fs : List (String × EVal)) : Bool :=
  match fs.find? (fun kv => kv.1 == "expressions") with
  | some (_, .nodes l) => noSeqElems l
  | _ => true

mutual
/-- No sequence expression anywhere inside a produced node has an immediate
element that is itself a sequence expression. -/
def noSeqE : ESNode → Bool
  | .mk ty _ _ _ fs => (!(ty == "SequenceExpression") || seqElemsOk fs) && noSeqFs fs

def noSeqFs : List (String × EVal) → Bool
  | [] => true
  | (_, v) :: rest => noSeqV v && noSeqFs rest

def noSeqV : EVal → Bool
  | .node e => noSeqE e
  | .nodes l => noSeqL l
  | _ => true

def noSeqL : List (Option ESNode) → Bool
  | [] => true
  | some e :: rest => noSeqE e && noSeqL rest
  | none :: rest => noSeqL rest
end

/-- The flattening invariant on an optional conversion result. -/
def noSeqO : Option ESNode → Bool
  | some t => noSeqE t
  | none => true

/-- The raw texts of the directive candidates among the first `i` entries of a
body (the contents of the de-duplication accumulator when entry `i` is
reached). -/
def directiveRawsBefore (body : List (Option ESNode)) (i : Nat) : List String :=
  (body.take i).filterMap (fun c => if isDirectiveCandidate c then directiveRaw c else none)

/-- A body entry with its `directive` field attached (the unquoted raw
text). -/
def withDirective (child : Option ESNode) : Option ESNode :=
  match child, directiveRaw child with
  | some c, some raw => some (c.setField "directive" (.str (sliceQuotes raw)))
  | _, _ => child

/-- Entry `i` of a body receives a directive exactly when it is a candidate
and no earlier candidate carries the same raw text (first occurrence wins). -/
def directiveApplies (body : List (Option ESNode)) (i : Nat) : Bool :=
  match body.get? i with
  | some child =>
    isDirectiveCandidate child &&
      (match directiveRaw child with
       | some raw => !(directiveRawsBefore body i).contains raw
       | none => false)
  | none => false

/-- The destructuring classification of an array literal as the claim states
it: the literal is the iteration target (the initializer position) of an
enclosing for-in or for-of statement, or it sits inside the left-hand operand
of the nearest enclosing assignment (the left-hand operand itself included). -/
def c1ClaimPatternCond (anc : List TSNode) (n : TSNode) : Bool :=
  (match anc.head? with
   | some (.forIn _ ini _ _) => ini.nodeId == n.nodeId
   | some (.forOf _ ini _ _ _) => ini.nodeId == n.nodeId
   | _ => false)
  || (match findAncestorOfKind anc .BinaryExpression with
      | some (.binaryExpr _ operatorToken left _) =>
        isAssignmentOperator operatorToken.kind &&
          left.subtree.any (fun c => c.nodeId == n.nodeId)
      | _ => false)

/-- The destructuring classification of an array literal as the code decides
it, stated in the specification's vocabulary: the literal's immediate parent
is a for-in or for-of statement (any child position), or the nearest enclosing
binary expression is an assignment, the literal's parent is neither a call
expression nor a shorthand property assignment, and the literal is that
assignment's left-hand operand or the first array literal found inside it. -/
def specArrayPatternCond (anc : List TSNode) (n : TSNode) : Bool :=
  (match anc.head? with
   | some p => p.kind == SyntaxKind.ForInStatement || p.kind == SyntaxKind.ForOfStatement
   | none => false)
  || (match anc.head?, findAncestorOfKind anc .BinaryExpression with
      | some parent0, some (.binaryExpr _ operatorToken left _) =>
        !(parent0.kind == SyntaxKind.ShorthandPropertyAssignment) &&
        !(parent0.kind == SyntaxKind.CallExpression) &&
        isAssignmentOperator operatorToken.kind &&
        (left.nodeId == n.nodeId ||
          (match findChildOfKind left .ArrayLiteralExpression with
           | some c => c.nodeId == n.nodeId
           | none => false))
      | _, _ => false)

/-! Concrete input trees and configurations used by the closed instances. -/

/-- A converter state with the given source text and no special options. -/
def plainState (code : String) : ConverterState :=
  { code := code,
    additionalOptions := {
      errorOnUnknownASTType := false, useJSXTextNode := false,
      shouldProvideParserServices := false } }

/-- A converter state with the given source text and parser services on. -/
def serviceState (code : String) : ConverterState :=
  { code := code,
    additionalOptions := {
      errorOnUnknownASTType := false, useJSXTextNode := false,
      shouldProvideParserServices := true } }

/-- An `extra` bag with everything off and the given source text. -/
def plainExtra (code : String) : Extra :=
  { range := false, loc := false, tokens := false, comment := false,
    jsx := false, useJSXTextNode := false, errorOnUnknownASTType := false,
    project := [], code := code }

/-- Input `for (x in [a]) y;`: the array literal is the iterated expression of
the for-in statement, not its iteration target. -/
def c1xIdent : TSNode := .identifier ⟨2, ⟨4, 5, 6⟩⟩ "x"
def c1aIdent : TSNode := .identifier ⟨4, ⟨11, 11, 12⟩⟩ "a"
def c1Arr : TSNode := .arrayLit ⟨3, ⟨9, 10, 13⟩⟩ [c1aIdent]
def c1yIdent : TSNode := .identifier ⟨6, ⟨14, 15, 16⟩⟩ "y"
def c1Stmt : TSNode := .exprStmt ⟨5, ⟨14, 15, 17⟩⟩ c1yIdent
def c1ForIn : TSNode := .forIn ⟨1, ⟨0, 0, 17⟩⟩ c1xIdent c1Arr c1Stmt
def c1Sf : TSNode := .sourceFile ⟨0, ⟨0, 0, 17⟩⟩ [c1ForIn] 17 false []
def c1Code : String := "for (x in [a]) y;"

/-- Input `r = fn([a, b]);`: the array literal sits in call-argument position
while the enclosing call is itself the right-hand side of an assignment. -/
def c1fR : TSNode := .identifier ⟨3, ⟨0, 0, 1⟩⟩ "r"
def c1fFn : TSNode := .identifier ⟨5, ⟨3, 4, 6⟩⟩ "fn"
def c1fA : TSNode := .identifier ⟨7, ⟨8, 8, 9⟩⟩ "a"
def c1fB : TSNode := .identifier ⟨8, ⟨10, 11, 12⟩⟩ "b"
def c1fArr : TSNode := .arrayLit ⟨6, ⟨7, 7, 13⟩⟩ [c1fA, c1fB]
def c1fCall : TSNode := .callExpr ⟨4, ⟨3, 4, 14⟩⟩ c1fFn [c1fArr]
def c1fBin : TSNode := .binaryExpr ⟨2, ⟨0, 0, 14⟩⟩ ⟨.EqualsToken, ⟨1, 2, 3⟩⟩ c1fR c1fCall
def c1fStmt : TSNode := .exprStmt ⟨1, ⟨0, 0, 15⟩⟩ c1fBin
def c1fSf : TSNode := .sourceFile ⟨0, ⟨0, 0, 15⟩⟩ [c1fStmt] 15 false []
def c1fCode : String := "r = fn([a, b]);"

/-- Input `[a] = c;`: the array literal is the left-hand operand of the
assignment. -/
def w1aIdent : TSNode := .identifier ⟨3, ⟨1, 1, 2⟩⟩ "a"
def w1Arr : TSNode := .arrayLit ⟨2, ⟨0, 0, 3⟩⟩ [w1aIdent]
def w1cIdent : TSNode := .identifier ⟨4, ⟨5, 6, 7⟩⟩ "c"
def w1Bin : TSNode := .binaryExpr ⟨1, ⟨0, 0, 7⟩⟩ ⟨.EqualsToken, ⟨3, 4, 5⟩⟩ w1Arr w1cIdent
def w1Stmt : TSNode := .exprStmt ⟨5, ⟨0, 0, 8⟩⟩ w1Bin
def w1Sf : TSNode := .sourceFile ⟨0, ⟨0, 0, 8⟩⟩ [w1Stmt] 8 false []
def w1Code : String := "[a] = c;"

/-- Input `(a);`: the parenthesized-expression rule passes the inner result
through, so the paren node re-registers the identifier's produced node. -/
def c2aIdent : TSNode := .identifier ⟨3, ⟨1, 1, 2⟩⟩ "a"
def c2Paren : TSNode := .paren ⟨2, ⟨0, 0, 3⟩⟩ c2aIdent
def c2Stmt : TSNode := .exprStmt ⟨1, ⟨0, 0, 4⟩⟩ c2Paren
def c2Sf : TSNode := .sourceFile ⟨0, ⟨0, 0, 4⟩⟩ [c2Stmt] 4 false []
def c2Code : String := "(a);"

/-- A one-identifier input used to instantiate the correspondence-map
invariant at a concrete node. -/
def w2Ident : TSNode := .identifier ⟨1, ⟨0, 0, 1⟩⟩ "a"

/-- Input `"use strict"; "use strict"; x;`. -/
def c3Lit1 : TSNode := .stringLit ⟨2, ⟨0, 0, 12⟩⟩ "use strict"
def c3Stmt1 : TSNode := .exprStmt ⟨1, ⟨0, 0, 13⟩⟩ c3Lit1
def c3Lit2 : TSNode := .stringLit ⟨4, ⟨13, 14, 26⟩⟩ "use strict"
def c3Stmt2 : TSNode := .exprStmt ⟨3, ⟨13, 14, 27⟩⟩ c3Lit2
def c3xIdent : TSNode := .identifier ⟨6, ⟨27, 28, 29⟩⟩ "x"
def c3Stmt3 : TSNode := .exprStmt ⟨5, ⟨27, 28, 30⟩⟩ c3xIdent
def c3Sf : TSNode := .sourceFile ⟨0, ⟨0, 0, 30⟩⟩ [c3Stmt1, c3Stmt2, c3Stmt3] 30 false []
def c3Code : String := "\"use strict\"; \"use strict\"; x;"

/-- Input `"";`: a string-literal expression statement whose cooked value is
the empty string. -/
def c3eLit : TSNode := .stringLit ⟨2, ⟨0, 0, 2⟩⟩ ""
def c3eStmt : TSNode := .exprStmt ⟨1, ⟨0, 0, 3⟩⟩ c3eLit
def c3eSf : TSNode := .sourceFile ⟨0, ⟨0, 0, 3⟩⟩ [c3eStmt] 3 false []
def c3eCode : String := "\"\";"

/-- A synthetic native node of a kind with no conversion rule whose fallback
tag is outside the recognized taxonomy. -/
def c4Node : TSNode := .unknown ⟨1, ⟨0, 0, 3⟩⟩ "Qwerty" [("flag", .boolV true)]

/-- A converter state with `errorOnUnknownASTType` enabled. -/
def strictState (code : String) : ConverterState :=
  { code := code,
    additionalOptions := {
      errorOnUnknownASTType := true, useJSXTextNode := false,
      shouldProvideParserServices := false } }

/-- Input `a, (b, c)`: a comma binary expression whose right operand is a
parenthesized comma binary expression. -/
def c5aIdent : TSNode := .identifier ⟨2, ⟨0, 0, 1⟩⟩ "a"
def c5bIdent : TSNode := .identifier ⟨5, ⟨4, 4, 5⟩⟩ "b"
def c5cIdent : TSNode := .identifier ⟨6, ⟨6, 7, 8⟩⟩ "c"
def c5Inner : TSNode := .binaryExpr ⟨4, ⟨4, 4, 8⟩⟩ ⟨.CommaToken, ⟨5, 5, 6⟩⟩ c5bIdent c5cIdent
def c5Paren : TSNode := .paren ⟨3, ⟨2, 3, 9⟩⟩ c5Inner
def c5Outer : TSNode := .binaryExpr ⟨1, ⟨0, 0, 9⟩⟩ ⟨.CommaToken, ⟨1, 1, 2⟩⟩ c5aIdent c5Paren
def c5Code : String := "a, (b, c)"

/-- Input `123n`. -/
def c6Node : TSNode := .bigIntLit ⟨1, ⟨0, 0, 4⟩⟩
def c6Code : String := "123n"

/-- A tree root carrying a front-end parse diagnostic. -/
def c7Diag : Diagnostic := ⟨5, some "Unexpected token", "fallback text"⟩
def c7Sf : TSNode := .sourceFile ⟨0, ⟨0, 0, 6⟩⟩ [] 6 false [c7Diag]

/-- An empty source file for the parser-level instances. -/
def c8Sf : TSNode := .sourceFile ⟨0, ⟨0, 0, 0⟩⟩ [] 0 false []

/-- An options object whose `ecmaFeatures.jsx` is the truthy non-boolean
string value `'true'`. -/
def c9Options : ParserOptions :=
  { ParserOptions.allUndefined with ecmaFeatures := .ecmaObj (.str "true") }

/-! Theorems. -/

theorem isBoolTrue_iff (v : JSVal) : isBoolTrue v = true ↔ v = .boolV true := by
  cases v <;> simp [isBoolTrue, BEq.beq, jsValBEq]

/-- C10: the conversion entry point is total on absent children: applied to an
absent (undefined or null) native node, `convert` returns `null` and leaves
the maps untouched instead of throwing; consequently an optional child missing
in the native tree (a return statement without an expression) appears as a
`null` field (`argument`) on the produced node. -/
theorem c10_convert_total_on_absent_children :
    (∀ (cfg : ConverterState) (anc : List TSNode) (parentOv : Option TSNode)
       (inTypeMode : Bool) (m : ASTMaps),
       convert cfg anc parentOv inTypeMode none m = .ok (none, m))
    ∧ (∀ (cfg : ConverterState) (anc : List TSNode) (parentOv : Option TSNode)
         (inTypeMode : Bool) (mt : NodeMeta) (m : ASTMaps),
         ∃ m2, convertNode cfg anc parentOv inTypeMode (.returnStmt mt none) m =
           .ok (some (createNode cfg (.returnStmt mt none) "ReturnStatement"
             [("argument", EVal.nullV)]), m2)) := by
  constructor
  · intro cfg anc parentOv inTypeMode m
    rfl
  · intro cfg anc parentOv inTypeMode mt m
    cases hb : cfg.additionalOptions.shouldProvideParserServices <;>
      simp [convertNode, registerMaps, hb, optNodeVal]

/-- C6: a big-integer literal's produced node carries the exact source slice
over the literal's range as its `raw` payload and that text with the trailing
suffix character removed, kept as a string, as its `value` payload; on the
input `123n` the payloads are `"123n"` and `"123"`. -/
theorem c6_bigint_literal_payloads :
    (∀ (cfg : ConverterState) (anc : List TSNode) (parentOv : Option TSNode)
       (inTypeMode : Bool) (mt : NodeMeta) (m : ASTMaps),
       ∃ m2, convertNode cfg anc parentOv inTypeMode (.bigIntLit mt) m =
         .ok (some (createNode cfg (.bigIntLit mt) "BigIntLiteral"
           [("raw", .str (strSlice cfg.code mt.span.start mt.span.endP)),
            ("value", .str (sliceDropLast (strSlice cfg.code mt.span.start mt.span.endP)))]),
           m2))
    ∧ ((match convertNode (plainState c6Code) [] none false c6Node ASTMaps.empty with
        | .ok (some t, _) => some (t.getField "raw", t.getField "value")
        | _ => none) = some (some (.str "123n"), some (.str "123"))) := by
  constructor
  · intro cfg anc parentOv inTypeMode mt m
    cases hb : cfg.additionalOptions.shouldProvideParserServices <;>
      simp [convertNode, registerMaps, hb] <;> rfl
  · rfl

/-- C7: a front-end parse diagnostic recorded on the tree root aborts the
`ast-converter` entry point immediately with an error built from that first
diagnostic's own message and position; no produced tree or maps are handed
back (the result is the error alone). -/
theorem c7_parse_diagnostics_abort (ast : TSNode) (extra : Extra)
    (shouldProvideParserServices : Bool) (d : Diagnostic) (rest : List Diagnostic)
    (h : ast.rootDiagnostics = d :: rest) :
    astConverter ast extra shouldProvideParserServices = .error (convertError d) := by
  simp only [astConverter, h]

theorem c7_parse_diagnostics_abort_witness :
    astConverter c7Sf (plainExtra "") false = .error (.parseError 5 "Unexpected token") :=
  c7_parse_diagnostics_abort c7Sf (plainExtra "") false c7Diag [] rfl

/-- C8: whenever the project option resolves to the empty list, the `parse`
result's services carry `undefined` (not empty maps) for the program handle
and for both correspondence maps. -/
theorem c8_services_undefined_without_project (code : String)
    (options : Option ParserOptions) (ast : TSNode) (program : Nat)
    (out : ParseResult)
    (hp : (generateASTExtraTs code options).project = [])
    (h : parse code options ast program = .ok out) :
    out.services.program = none ∧ out.services.esTreeNodeToTSNodeMap = none
      ∧ out.services.tsNodeToESTreeNodeMap = none := by
  simp only [parse, generateAST, hp, List.isEmpty_nil, Bool.not_true] at h
  rcases hac : astConverter ast (generateASTExtraTs code options) false with err | okv
  · rw [hac] at h
    cases h
  · rw [hac] at h
    simp only [Bool.false_eq_true, if_false, reduceIte] at h
    cases h
    exact ⟨rfl, rfl, rfl⟩

theorem c8_services_undefined_without_project_witness :
    (generateASTExtraTs "" none).project = [] ∧
    ∃ out, parse "" none c8Sf 7 = .ok out ∧ out.services.program = none
      ∧ out.services.esTreeNodeToTSNodeMap = none
      ∧ out.services.tsNodeToESTreeNodeMap = none := by
  refine ⟨rfl, ?_⟩
  refine ⟨_, rfl, ?_⟩
  exact c8_services_undefined_without_project "" none c8Sf 7 _ rfl rfl

/-- C9 (amended): in the TypeScript parser every listed boolean option (range,
loc, tokens, comment, useJSXTextNode, and jsx both directly and through
`ecmaFeatures`) takes effect exactly when its value is the boolean `true`; in
the legacy parser.js the five plain flags behave the same, but the
`ecmaFeatures.jsx` value is copied through unchecked, so the JSX compilation
mode (the synthetic `.tsx` filename) follows plain truthiness of that raw
value. -/
theorem c9_boolean_option_normalization (o : ParserOptions) (code : String) :
    ((generateASTExtraTs code (some o)).range = true ↔ o.range = .boolV true)
    ∧ ((generateASTExtraTs code (some o)).loc = true ↔ o.loc = .boolV true)
    ∧ ((generateASTExtraTs code (some o)).tokens = true ↔ o.tokens = .boolV true)
    ∧ ((generateASTExtraTs code (some o)).comment = true ↔ o.comment = .boolV true)
    ∧ ((generateASTExtraTs code (some o)).useJSXTextNode = true ↔
        o.useJSXTextNode = .boolV true)
    ∧ ((generateASTExtraTs code (some o)).jsx = true ↔
        (o.jsx = .boolV true ∨ o.ecmaFeatures = .ecmaObj (.boolV true)))
    ∧ ((generateASTExtraJs (some o)).range = true ↔ o.range = .boolV true)
    ∧ ((generateASTExtraJs (some o)).loc = true ↔ o.loc = .boolV true)
    ∧ ((generateASTExtraJs (some o)).tokens = true ↔ o.tokens = .boolV true)
    ∧ ((generateASTExtraJs (some o)).comment = true ↔ o.comment = .boolV true)
    ∧ ((generateASTExtraJs (some o)).useJSXTextNode = true ↔
        o.useJSXTextNode = .boolV true)
    ∧ (createNewProgramFilenameJs (generateASTExtraJs (some o)) =
        (if jsTruthy (match o.ecmaFeatures with
          | .ecmaObj j => j
          | _ => .undef) then "estree.tsx" else "estree.ts")) := by
  refine ⟨isBoolTrue_iff o.range, isBoolTrue_iff o.loc, isBoolTrue_iff o.tokens,
    isBoolTrue_iff o.comment, isBoolTrue_iff o.useJSXTextNode, ?_,
    isBoolTrue_iff o.range, isBoolTrue_iff o.loc, isBoolTrue_iff o.tokens,
    isBoolTrue_iff o.comment, isBoolTrue_iff o.useJSXTextNode, ?_⟩
  · show (isBoolTrue o.jsx || _) = true ↔ _
    rw [Bool.or_eq_true]
    constructor
    · rintro (hj | he)
      · exact Or.inl ((isBoolTrue_iff o.jsx).mp hj)
      · right
        revert he
        cases hef : o.ecmaFeatures <;> simp
        rename_i j
        intro hj
        rw [(isBoolTrue_iff j).mp hj]
    · rintro (hj | he)
      · exact Or.inl ((isBoolTrue_iff o.jsx).mpr hj)
      · right
        rw [he]
        rfl
  · show createNewProgramFilenameJs _ = _
    cases hef : o.ecmaFeatures <;>
      simp [createNewProgramFilenameJs, generateASTExtraJs, hef, jsTruthy]

/-- C9 counterexample: the claim as stated fails on the legacy parser.js jsx
flag: the non-boolean truthy value `'true'` for `ecmaFeatures.jsx` enables the
JSX compilation mode (the `.tsx` synthetic filename), unlike an omitted
option. -/
theorem c9_boolean_option_normalization_counterexample :
    c9Options.ecmaFeatures = .ecmaObj (.str "true")
    ∧ createNewProgramFilenameJs (generateASTExtraJs (some c9Options)) = "estree.tsx"
    ∧ createNewProgramFilenameJs (generateASTExtraJs none) = "estree.ts" :=
  ⟨rfl, rfl, rfl⟩


mutual
/-- Outside strict mode the conversion engine is total: it never throws. -/
theorem convertNode_ok (cfg : ConverterState)
    (hflag : cfg.additionalOptions.errorOnUnknownASTType = false)
    (anc : List TSNode) (parentOv : Option TSNode) (inTypeMode : Bool)
    (n : TSNode) (m : ASTMaps) :
    ∃ r m2, convertNode cfg anc parentOv inTypeMode n m = .ok (r, m2) := by
  cases n with
  | sourceFile mt sts eof mi pd =>
    obtain ⟨rs, m1, h⟩ := convertList_ok cfg hflag
      (TSNode.sourceFile mt sts eof mi pd :: anc) false sts m
    cases hb : cfg.additionalOptions.shouldProvideParserServices <;>
      simp [convertNode, registerMaps, h, hb]
  | exprStmt mt e =>
    obtain ⟨r, m1, h⟩ := convertNode_ok cfg hflag
      (TSNode.exprStmt mt e :: anc) none false e m
    cases hb : cfg.additionalOptions.shouldProvideParserServices <;>
      simp [convertNode, registerMaps, h, hb]
  | returnStmt mt e =>
    cases e with
    | none =>
      cases hb : cfg.additionalOptions.shouldProvideParserServices <;>
        simp [convertNode, registerMaps, hb]
    | some c =>
      obtain ⟨r, m1, h⟩ := convertNode_ok cfg hflag
        (TSNode.returnStmt mt (some c) :: anc) none false c m
      cases hb : cfg.additionalOptions.shouldProvideParserServices <;>
        simp [convertNode, registerMaps, h, hb]
  | identifier mt t =>
    cases hb : cfg.additionalOptions.shouldProvideParserServices <;>
      simp [convertNode, registerMaps, hb]
  | stringLit mt t =>
    cases hb : cfg.additionalOptions.shouldProvideParserServices <;>
      simp [convertNode, registerMaps, hb]
  | bigIntLit mt =>
    cases hb : cfg.additionalOptions.shouldProvideParserServices <;>
      simp [convertNode, registerMaps, hb]
  | arrayLit mt els =>
    obtain ⟨rs, m1, h⟩ := convertList_ok cfg hflag
      (TSNode.arrayLit mt els :: anc) false els m
    cases hp : arrayLiteralIsPattern anc (.arrayLit mt els) <;>
      cases hb : cfg.additionalOptions.shouldProvideParserServices <;>
        simp [convertNode, registerMaps, h, hp, hb]
  | binaryExpr mt tok l r =>
    obtain ⟨lr, m1, hl⟩ := convertNode_ok cfg hflag
      (TSNode.binaryExpr mt tok l r :: anc) none false l m
    obtain ⟨rr, m2, hr⟩ := convertNode_ok cfg hflag
      (TSNode.binaryExpr mt tok l r :: anc) none false r m1
    cases hc : isComma tok <;>
      cases ha : (getBinaryExpressionType tok == "AssignmentExpression") <;>
        cases hd : assignmentIsInDestructuredTarget anc <;>
          cases hb : cfg.additionalOptions.shouldProvideParserServices <;>
            simp [convertNode, registerMaps, hc, hl, hr, ha, hd, hb]
  | callExpr mt e args =>
    obtain ⟨cr, m1, hcal⟩ := convertNode_ok cfg hflag
      (TSNode.callExpr mt e args :: anc) none false e m
    obtain ⟨ars, m2, hargs⟩ := convertList_ok cfg hflag
      (TSNode.callExpr mt e args :: anc) false args m1
    cases hb : cfg.additionalOptions.shouldProvideParserServices <;>
      simp [convertNode, registerMaps, hcal, hargs, hb]
  | paren mt e =>
    obtain ⟨r, m1, h⟩ := convertNode_ok cfg hflag (TSNode.paren mt e :: anc)
      (match parentOv with | some p => some p | none => anc.head?) false e m
    cases r with
    | none =>
      cases hb : cfg.additionalOptions.shouldProvideParserServices <;>
        simp [convertNode, registerMaps, h, hb]
    | some t =>
      cases hb : cfg.additionalOptions.shouldProvideParserServices <;>
        simp [convertNode, registerMaps, h, hb]
  | forIn mt i e s =>
    obtain ⟨ir, m1, hi⟩ := convertNode_ok cfg hflag
      (TSNode.forIn mt i e s :: anc) none false i m
    obtain ⟨er, m2, he⟩ := convertNode_ok cfg hflag
      (TSNode.forIn mt i e s :: anc) none false e m1
    obtain ⟨sr, m3, hs⟩ := convertNode_ok cfg hflag
      (TSNode.forIn mt i e s :: anc) none false s m2
    cases hb : cfg.additionalOptions.shouldProvideParserServices <;>
      simp [convertNode, registerMaps, hi, he, hs, hb]
  | forOf mt i e s aw =>
    obtain ⟨ir, m1, hi⟩ := convertNode_ok cfg hflag
      (TSNode.forOf mt i e s aw :: anc) none false i m
    obtain ⟨er, m2, he⟩ := convertNode_ok cfg hflag
      (TSNode.forOf mt i e s aw :: anc) none false e m1
    obtain ⟨sr, m3, hs⟩ := convertNode_ok cfg hflag
      (TSNode.forOf mt i e s aw :: anc) none false s m2
    cases hb : cfg.additionalOptions.shouldProvideParserServices <;>
      simp [convertNode, registerMaps, hi, he, hs, hb]
  | decorator mt e =>
    obtain ⟨r, m1, h⟩ := convertNode_ok cfg hflag
      (TSNode.decorator mt e :: anc) none false e m
    cases hb : cfg.additionalOptions.shouldProvideParserServices <;>
      simp [convertNode, registerMaps, hflag, h, hb]
  | unknown mt name fs =>
    obtain ⟨efs, m1, h⟩ := convertFields_ok cfg hflag
      (TSNode.unknown mt name fs :: anc) (TSNode.unknown mt name fs) fs m
    cases hb : cfg.additionalOptions.shouldProvideParserServices <;>
      simp [convertNode, registerMaps, hflag, h, hb]
termination_by structural n

theorem convertList_ok (cfg : ConverterState)
    (hflag : cfg.additionalOptions.errorOnUnknownASTType = false)
    (anc : List TSNode) (inTypeMode : Bool) (l : List TSNode) (m : ASTMaps) :
    ∃ rs m2, convertList cfg anc inTypeMode l m = .ok (rs, m2) := by
  cases l with
  | nil => exact ⟨[], m, rfl⟩
  | cons h t =>
    obtain ⟨r, m1, hh⟩ := convertNode_ok cfg hflag anc none inTypeMode h m
    obtain ⟨rs, m2, ht⟩ := convertList_ok cfg hflag anc inTypeMode t m1
    simp [convertList, hh, ht]
termination_by structural l

theorem convertDecorators_ok (cfg : ConverterState)
    (hflag : cfg.additionalOptions.errorOnUnknownASTType = false)
    (anc : List TSNode) (l : List TSNode) (m : ASTMaps) :
    ∃ rs m2, convertDecorators cfg anc l m = .ok (rs, m2) := by
  cases l with
  | nil => exact ⟨[], m, rfl⟩
  | cons d rest =>
    cases d with
    | decorator mt e =>
      obtain ⟨r, m1, hd⟩ := convertNode_ok cfg hflag anc none false e m
      obtain ⟨rs2, m3, hrest2⟩ := convertDecorators_ok cfg hflag anc rest m1
      simp [convertDecorators, hd, hrest2]
    | sourceFile mt sts eof mi pd =>
      obtain ⟨rs2, m3, hrest2⟩ := convertDecorators_ok cfg hflag anc rest m
      simp [convertDecorators, hrest2]
    | exprStmt mt e =>
      obtain ⟨rs2, m3, hrest2⟩ := convertDecorators_ok cfg hflag anc rest m
      simp [convertDecorators, hrest2]
    | returnStmt mt e =>
      obtain ⟨rs2, m3, hrest2⟩ := convertDecorators_ok cfg hflag anc rest m
      simp [convertDecorators, hrest2]
    | identifier mt t =>
      obtain ⟨rs2, m3, hrest2⟩ := convertDecorators_ok cfg hflag anc rest m
      simp [convertDecorators, hrest2]
    | stringLit mt t =>
      obtain ⟨rs2, m3, hrest2⟩ := convertDecorators_ok cfg hflag anc rest m
      simp [convertDecorators, hrest2]
    | bigIntLit mt =>
      obtain ⟨rs2, m3, hrest2⟩ := convertDecorators_ok cfg hflag anc rest m
      simp [convertDecorators, hrest2]
    | arrayLit mt els =>
      obtain ⟨rs2, m3, hrest2⟩ := convertDecorators_ok cfg hflag anc rest m
      simp [convertDecorators, hrest2]
    | binaryExpr mt tok a b =>
      obtain ⟨rs2, m3, hrest2⟩ := convertDecorators_ok cfg hflag anc rest m
      simp [convertDecorators, hrest2]
    | callExpr mt e args =>
      obtain ⟨rs2, m3, hrest2⟩ := convertDecorators_ok cfg hflag anc rest m
      simp [convertDecorators, hrest2]
    | paren mt e =>
      obtain ⟨rs2, m3, hrest2⟩ := convertDecorators_ok cfg hflag anc rest m
      simp [convertDecorators, hrest2]
    | forIn mt i e s2 =>
      obtain ⟨rs2, m3, hrest2⟩ := convertDecorators_ok cfg hflag anc rest m
      simp [convertDecorators, hrest2]
    | forOf mt i e s2 aw =>
      obtain ⟨rs2, m3, hrest2⟩ := convertDecorators_ok cfg hflag anc rest m
      simp [convertDecorators, hrest2]
    | unknown mt name fs =>
      obtain ⟨rs2, m3, hrest2⟩ := convertDecorators_ok cfg hflag anc rest m
      simp [convertDecorators, hrest2]
termination_by structural l

theorem convertFieldEntry_ok (cfg : ConverterState)
    (hflag : cfg.additionalOptions.errorOnUnknownASTType = false)
    (anc : List TSNode) (node : TSNode) (key : String) (v : TSVal) (m : ASTMaps) :
    ∃ entry m2, convertFieldEntry cfg anc node key v m = .ok (entry, m2) := by
  cases v with
  | node c =>
    obtain ⟨rT, mT, hT⟩ := convertNode_ok cfg hflag anc none true c m
    cases hk1 : (key == "type") <;> cases hk2 : (key == "typeArguments") <;>
      cases hk3 : (key == "typeParameters") <;> cases hk4 : (key == "decorators") <;>
        [skip; skip; skip; skip; skip; skip; skip; skip; skip; skip; skip; skip;
         skip; skip; skip; skip] <;>
      · obtain ⟨rF, mF, hF⟩ := convertNode_ok cfg hflag anc none false c m
        simp only [convertFieldEntry, hk1, hk2, hk3, hk4, hT, hF,
          eq_self_iff_true, Bool.false_eq_true, if_true, if_false]
        exact ⟨_, _, rfl⟩
  | nodes p ep l =>
    obtain ⟨rsT, mT, hT⟩ := convertList_ok cfg hflag anc true l m
    obtain ⟨rsF, mF, hF⟩ := convertList_ok cfg hflag anc false l m
    obtain ⟨rsD, mD, hD⟩ := convertDecorators_ok cfg hflag anc l m
    cases l with
    | nil =>
      cases hk1 : (key == "type") <;> cases hk2 : (key == "typeArguments") <;>
        cases hk3 : (key == "typeParameters") <;> cases hk4 : (key == "decorators") <;>
          · simp only [convertFieldEntry, hk1, hk2, hk3, hk4, hT, hF,
              eq_self_iff_true, Bool.false_eq_true, if_true, if_false]
            exact ⟨_, _, rfl⟩
    | cons d ds =>
      cases rsD with
      | nil =>
        cases hk1 : (key == "type") <;> cases hk2 : (key == "typeArguments") <;>
          cases hk3 : (key == "typeParameters") <;> cases hk4 : (key == "decorators") <;>
            · simp only [convertFieldEntry, hk1, hk2, hk3, hk4, hT, hF, hD,
                eq_self_iff_true, Bool.false_eq_true, if_true, if_false]
              exact ⟨_, _, rfl⟩
      | cons d2 ds2 =>
        cases hk1 : (key == "type") <;> cases hk2 : (key == "typeArguments") <;>
          cases hk3 : (key == "typeParameters") <;> cases hk4 : (key == "decorators") <;>
            · simp only [convertFieldEntry, hk1, hk2, hk3, hk4, hT, hF, hD,
                eq_self_iff_true, Bool.false_eq_true, if_true, if_false]
              exact ⟨_, _, rfl⟩
  | str s2 =>
    cases hk1 : (key == "type") <;> cases hk2 : (key == "typeArguments") <;>
      cases hk3 : (key == "typeParameters") <;> cases hk4 : (key == "decorators") <;>
        · simp only [convertFieldEntry, hk1, hk2, hk3, hk4,
            eq_self_iff_true, Bool.false_eq_true, if_true, if_false]
          exact ⟨_, _, rfl⟩
  | boolV b =>
    cases hk1 : (key == "type") <;> cases hk2 : (key == "typeArguments") <;>
      cases hk3 : (key == "typeParameters") <;> cases hk4 : (key == "decorators") <;>
        · simp only [convertFieldEntry, hk1, hk2, hk3, hk4,
            eq_self_iff_true, Bool.false_eq_true, if_true, if_false]
          exact ⟨_, _, rfl⟩
  | numV i =>
    cases hk1 : (key == "type") <;> cases hk2 : (key == "typeArguments") <;>
      cases hk3 : (key == "typeParameters") <;> cases hk4 : (key == "decorators") <;>
        · simp only [convertFieldEntry, hk1, hk2, hk3, hk4,
            eq_self_iff_true, Bool.false_eq_true, if_true, if_false]
          exact ⟨_, _, rfl⟩
  | undef =>
    cases hk1 : (key == "type") <;> cases hk2 : (key == "typeArguments") <;>
      cases hk3 : (key == "typeParameters") <;> cases hk4 : (key == "decorators") <;>
        · simp only [convertFieldEntry, hk1, hk2, hk3, hk4,
            eq_self_iff_true, Bool.false_eq_true, if_true, if_false]
          exact ⟨_, _, rfl⟩
termination_by structural v

theorem convertFields_ok (cfg : ConverterState)
    (hflag : cfg.additionalOptions.errorOnUnknownASTType = false)
    (anc : List TSNode) (node : TSNode) (fs : List (String × TSVal)) (m : ASTMaps) :
    ∃ efs m2, convertFields cfg anc node fs m = .ok (efs, m2) := by
  cases fs with
  | nil => exact ⟨[], m, rfl⟩
  | cons kv rest =>
    obtain ⟨key, v⟩ := kv
    cases hexcl : deeplyCopyExcludedKeys.contains key with
    | true =>
      obtain ⟨efs, m2, hrest⟩ := convertFields_ok cfg hflag anc node rest m
      simp only [convertFields, hexcl, eq_self_iff_true, if_true, hrest]
      exact ⟨_, _, rfl⟩
    | false =>
      obtain ⟨entry, m1, hentry⟩ := convertFieldEntry_ok cfg hflag anc node key v m
      obtain ⟨efs, m2, hrest⟩ := convertFields_ok cfg hflag anc node rest m1
      simp only [convertFields, hexcl, Bool.false_eq_true, if_false, hentry, hrest]
      exact ⟨_, _, rfl⟩
termination_by structural fs
end

/-- C4: a native node kind with no dedicated conversion rule goes through the
structural fallback `deeplyCopy`: when `errorOnUnknownASTType` is enabled and
the computed fallback tag (the kind name prefixed with `TS`) is not in the
recognized target-type list, conversion fails with an unknown-AST-type error;
when the flag is false, conversion returns a best-effort node whose `type` is
that fallback tag and whose fields are the recursively copied child fields. -/
theorem c4_unknown_kind_fallback (cfg : ConverterState) (anc : List TSNode)
    (mt : NodeMeta) (name : String) (fields : List (String × TSVal)) (m : ASTMaps) :
    (cfg.additionalOptions.errorOnUnknownASTType = true →
      astNodeTypes.contains ("TS" ++ name) = false →
      convertNode cfg anc none false (.unknown mt name fields) m
        = .error (.unknownASTType ("TS" ++ name)))
    ∧ (cfg.additionalOptions.errorOnUnknownASTType = false →
      ∃ t m2, convertNode cfg anc none false (.unknown mt name fields) m
          = .ok (some t, m2)
        ∧ t.type = "TS" ++ name
        ∧ ∃ efs m1,
            convertFields cfg (TSNode.unknown mt name fields :: anc)
              (.unknown mt name fields) fields m = .ok (efs, m1)
            ∧ t.fields = efs) := by
  constructor
  · intro hflag hmem
    have hm2 : "TS" ++ name ∉ astNodeTypes := by simpa using hmem
    simp [convertNode, registerMaps, hflag, hm2]
  · intro hflag
    obtain ⟨efs, m1, hf⟩ :=
      convertFields_ok cfg hflag (TSNode.unknown mt name fields :: anc)
        (.unknown mt name fields) fields m
    cases hsp : cfg.additionalOptions.shouldProvideParserServices with
    | false =>
      have hconv : convertNode cfg anc none false (.unknown mt name fields) m
          = .ok (some (createNode cfg (.unknown mt name fields) ("TS" ++ name) efs),
              m1) := by
        simp [convertNode, registerMaps, hflag, hf, hsp]
      exact ⟨_, _, hconv, rfl, efs, m1, hf, rfl⟩
    | true =>
      have hconv : convertNode cfg anc none false (.unknown mt name fields) m
          = .ok (some (createNode cfg (.unknown mt name fields) ("TS" ++ name) efs),
              insertASTMaps m1 (TSNode.unknown mt name fields).nodeId
                (createNode cfg (.unknown mt name fields) ("TS" ++ name) efs)) := by
        simp [convertNode, registerMaps, hflag, hf, hsp]
      exact ⟨_, _, hconv, rfl, efs, m1, hf, rfl⟩

theorem c4_unknown_kind_fallback_witness :
    (convertNode (strictState "qwe") [] none false c4Node ASTMaps.empty
      = .error (.unknownASTType "TSQwerty"))
    ∧ ∃ t m2, convertNode (plainState "qwe") [] none false c4Node ASTMaps.empty
        = .ok (some t, m2) ∧ t.type = "TSQwerty" := by
  constructor
  · have h := (c4_unknown_kind_fallback (strictState "qwe") [] ⟨1, ⟨0, 0, 3⟩⟩
      "Qwerty" [("flag", .boolV true)] ASTMaps.empty).1 rfl (by decide)
    exact h
  · obtain ⟨t, m2, heq, htype, -⟩ :=
      (c4_unknown_kind_fallback (plainState "qwe") [] ⟨1, ⟨0, 0, 3⟩⟩
        "Qwerty" [("flag", .boolV true)] ASTMaps.empty).2 rfl
    exact ⟨t, m2, heq, htype⟩

/-- Appending a raw text already present in the accumulator does not change any
membership test (`unique.includes` is insensitive to such duplicates). -/
theorem contains_append_cons_of_mem (unique : List String) (raw : String)
    (h : unique.contains raw = true) (l : List String) (x : String) :
    (unique ++ raw :: l).contains x = (unique ++ l).contains x := by
  have hmem : raw ∈ unique := by simpa using h
  by_cases hx : x = raw
  · subst hx; simp [hmem]
  · simp [List.mem_append, List.mem_cons, hx]

/-- Positional characterization of the directive pass: entry `i` of the output
is entry `i` of the input, re-tagged with a `directive` field exactly when it
is a directive candidate whose raw text occurs neither in the initial
accumulator nor among the earlier candidates. -/
theorem directivePass_get (body : List (Option ESNode)) :
    ∀ (unique : List String) (i : Nat),
    (directivePass unique body).get? i =
      (body.get? i).map (fun child =>
        if isDirectiveCandidate child
            && (match directiveRaw child with
              | some raw => !((unique ++ directiveRawsBefore body i).contains raw)
              | none => false)
        then withDirective child else child) := by
  induction body with
  | nil => intro unique i; simp [directivePass]
  | cons child rest ih =>
    intro unique i
    cases hc : isDirectiveCandidate child with
    | false =>
      cases i with
      | zero => simp [directivePass, hc]
      | succ j =>
        have hr : directiveRawsBefore (child :: rest) (j + 1)
            = directiveRawsBefore rest j := by
          simp [directiveRawsBefore, List.take_succ_cons, List.filterMap_cons, hc]
        have hstep : directivePass unique (child :: rest)
            = child :: directivePass unique rest := by
          simp [directivePass, hc]
        rw [hstep, List.get?_cons_succ, List.get?_cons_succ, ih unique j, hr]
    | true =>
      cases child with
      | none => simp [isDirectiveCandidate] at hc
      | some c =>
        cases hraw : directiveRaw (some c) with
        | none =>
          cases i with
          | zero => simp [directivePass, hc, hraw]
          | succ j =>
            have hr : directiveRawsBefore (some c :: rest) (j + 1)
                = directiveRawsBefore rest j := by
              simp [directiveRawsBefore, List.take_succ_cons, List.filterMap_cons,
                hc, hraw]
            have hstep : directivePass unique (some c :: rest)
                = some c :: directivePass unique rest := by
              simp [directivePass, hc, hraw]
            rw [hstep, List.get?_cons_succ, List.get?_cons_succ, ih unique j, hr]
        | some raw =>
          cases hmem : unique.contains raw with
          | true =>
            have hm : raw ∈ unique := by simpa using hmem
            cases i with
            | zero => simp [directivePass, hc, hraw, hm, directiveRawsBefore]
            | succ j =>
              have hr : directiveRawsBefore (some c :: rest) (j + 1)
                  = raw :: directiveRawsBefore rest j := by
                simp [directiveRawsBefore, List.take_succ_cons, List.filterMap_cons,
                  hc, hraw]
              have hstep : directivePass unique (some c :: rest)
                  = some c :: directivePass unique rest := by
                simp [directivePass, hc, hraw, hm]
              rw [hstep, List.get?_cons_succ, List.get?_cons_succ, ih unique j, hr]
              apply Option.map_congr
              intro a ha
              cases hra : directiveRaw a with
              | none => simp [hra]
              | some ra =>
                have hsh := contains_append_cons_of_mem unique raw hmem
                  (directiveRawsBefore rest j) ra
                simp only [hra, hsh]
          | false =>
            have hm : raw ∉ unique := by simpa using hmem
            cases i with
            | zero =>
              simp [directivePass, hc, hraw, hm, directiveRawsBefore, withDirective]
            | succ j =>
              have hr : directiveRawsBefore (some c :: rest) (j + 1)
                  = raw :: directiveRawsBefore rest j := by
                simp [directiveRawsBefore, List.take_succ_cons, List.filterMap_cons,
                  hc, hraw]
              have hstep : directivePass unique (some c :: rest)
                  = some (c.setField "directive" (.str (sliceQuotes raw)))
                    :: directivePass (unique ++ [raw]) rest := by
                simp [directivePass, hc, hraw, hm]
              rw [hstep, List.get?_cons_succ, List.get?_cons_succ,
                ih (unique ++ [raw]) j, hr]
              simp [List.append_assoc]

/-- C3 (amended): in a directive-supporting container, the directive pass
re-tags a body entry exactly when it is a directive *candidate* — a non-null
expression statement whose expression is a string `Literal` with a truthy
(non-empty) string value — whose raw text has not occurred on an earlier
candidate (first occurrence wins, case-sensitively, de-duplicated by raw
text); every other entry is kept unchanged.  Concretely, for
`"use strict"; "use strict"; x;` the first statement carries
`directive = "use strict"`, and the second string-literal statement stays an
ordinary expression statement with no directive field. -/
theorem c3_directives_first_occurrence :
    (∀ (node : TSNode) (body : List (Option ESNode)) (i : Nat),
      canContainDirective node = true →
      (convertBodyExpressionsToDirectives node body).get? i =
        (body.get? i).map (fun child =>
          if directiveApplies body i then withDirective child else child))
    ∧ (match convertNode (plainState c3Code) [] none false c3Sf ASTMaps.empty with
       | .ok (some t, _) =>
         (match t.getField "body" with
          | some (.nodes [some s1, some s2, some s3]) =>
            (match s1.getField "directive" with
             | some (.str d) => d = "use strict"
             | _ => False)
            ∧ s2.type = "ExpressionStatement"
            ∧ s2.getField "directive" = none
            ∧ (match s2.getField "expression" with
               | some (.node e) => e.type = "Literal"
                 ∧ (match e.getField "value" with
                    | some (.str v) => v = "use strict"
                    | _ => False)
               | _ => False)
            ∧ s3.getField "directive" = none
          | _ => False)
       | _ => False) := by
  constructor
  · intro node body i h
    rw [show convertBodyExpressionsToDirectives node body = directivePass [] body from
      by simp [convertBodyExpressionsToDirectives, h]]
    rw [directivePass_get body [] i]
    cases hbi : body.get? i with
    | none => rfl
    | some child =>
      have hbi2 : body[i]? = some child := by
        rw [← List.get?_eq_getElem?]; exact hbi
      simp [directiveApplies, hbi2]
  · exact ⟨rfl, rfl, rfl, ⟨rfl, rfl⟩, rfl⟩

theorem c3_directives_first_occurrence_witness :
    canContainDirective c3Sf = true
    ∧ (convertBodyExpressionsToDirectives c3Sf [none]).get? 0
      = (([none] : List (Option ESNode)).get? 0).map (fun child =>
          if directiveApplies [none] 0 then withDirective child else child) :=
  ⟨rfl, c3_directives_first_occurrence.1 c3Sf [none] 0 rfl⟩

/-- For input `"";` the lone statement is a string-literal expression statement
(the claim's stated trigger), yet no directive entry is recorded for its raw
text: the pass filters on a truthy string *value*, so the empty string literal
is skipped entirely. -/
theorem c3_directives_first_occurrence_counterexample :
    (match convertNode (plainState c3eCode) [] none false c3eSf ASTMaps.empty with
     | .ok (some t, _) =>
       (match t.getField "body" with
        | some (.nodes [some s]) =>
          s.type = "ExpressionStatement"
          ∧ (match s.getField "expression" with
             | some (.node e) => e.type = "Literal"
               ∧ (match e.getField "value" with
                  | some (.str v) => v = ""
                  | _ => False)
               ∧ (match e.getField "raw" with
                  | some (.str r) => r = "\"\""
                  | _ => False)
             | _ => False)
          ∧ s.getField "directive" = none
        | _ => False)
     | _ => False) := by
  exact ⟨rfl, ⟨rfl, rfl, rfl⟩, rfl⟩

/-- `getBinaryExpressionType` returns the assignment classification exactly on
assignment operator tokens. -/
theorem getBinaryExpressionType_eq_assignment (tok : Tok) :
    (getBinaryExpressionType tok == "AssignmentExpression")
      = isAssignmentOperator tok.kind := by
  unfold getBinaryExpressionType
  cases h : isAssignmentOperator tok.kind with
  | true => simp [h]
  | false => cases h2 : isLogicalOperator tok.kind <;> simp [h, h2]

/-- The inline destructuring classification of the array-literal rule equals
its restatement in the specification's vocabulary. -/
theorem arrayLiteralIsPattern_eq (anc : List TSNode) (n : TSNode) :
    arrayLiteralIsPattern anc n = specArrayPatternCond anc n := by
  unfold arrayLiteralIsPattern specArrayPatternCond
  cases hanc : anc.head? with
  | none =>
    have hnil : anc = [] := by cases anc with | nil => rfl | cons a r => simp at hanc
    subst hnil
    simp [findAncestorOfKind]
  | some p =>
    cases hfa : findAncestorOfKind anc .BinaryExpression with
    | none =>
      simp only [hanc, hfa]
      cases h1 : (p.kind == SyntaxKind.ForOfStatement) <;>
        cases h2 : (p.kind == SyntaxKind.ForInStatement) <;> simp [h1, h2]
    | some assign =>
      have hfa2 : anc.find? (fun q => q.kind == SyntaxKind.BinaryExpression)
          = some assign := hfa
      have hk := List.find?_some hfa2
      cases assign
      case binaryExpr mt tok left right =>
        simp only [hanc, hfa, getBinaryExpressionType_eq_assignment]
        cases hsh : (p.kind == SyntaxKind.ShorthandPropertyAssignment) <;>
          cases hcall : (p.kind == SyntaxKind.CallExpression) <;>
          cases hass : isAssignmentOperator tok.kind <;>
          cases hof : (p.kind == SyntaxKind.ForOfStatement) <;>
          cases hin : (p.kind == SyntaxKind.ForInStatement) <;>
          simp [hsh, hcall, hass, hof, hin, Bool.or_comm]
      all_goals simp [TSNode.kind] at hk

/-- C1 (amended): an array literal converts to an `ArrayPattern` exactly when
its immediate parent is a for-in or for-of statement (in *any* child position,
the iterated expression included, not only the iteration target), or the
nearest enclosing binary expression is an assignment, the parent is neither a
call expression nor a shorthand property assignment, and the literal is that
assignment's left-hand operand or the first array literal found inside it;
otherwise it converts to an `ArrayExpression`.  In particular the literal of
`r = fn([a, b]);` (call-argument position, enclosing call assigned) converts
to an `ArrayExpression`. -/
theorem c1_array_literal_classification :
    (∀ (cfg : ConverterState) (anc : List TSNode) (mt : NodeMeta)
        (elements : List TSNode) (m : ASTMaps),
      cfg.additionalOptions.errorOnUnknownASTType = false →
      ∃ t m2, convertNode cfg anc none false (.arrayLit mt elements) m
          = .ok (some t, m2)
        ∧ t.type = (if specArrayPatternCond anc (.arrayLit mt elements)
            then "ArrayPattern" else "ArrayExpression"))
    ∧ (match convertNode (plainState c1fCode) [c1fCall, c1fBin, c1fStmt, c1fSf]
          none false c1fArr ASTMaps.empty with
       | .ok (some t, _) => t.type = "ArrayExpression"
       | _ => False) := by
  constructor
  · intro cfg anc mt elements m hflag
    obtain ⟨els, m2, hels⟩ :=
      convertList_ok cfg hflag (TSNode.arrayLit mt elements :: anc) false elements m
    have hspec : specArrayPatternCond anc (.arrayLit mt elements)
        = arrayLiteralIsPattern anc (.arrayLit mt elements) :=
      (arrayLiteralIsPattern_eq anc _).symm
    cases hpat : arrayLiteralIsPattern anc (.arrayLit mt elements) with
    | true =>
      cases hsp : cfg.additionalOptions.shouldProvideParserServices with
      | false =>
        have hconv : convertNode cfg anc none false (.arrayLit mt elements) m
            = .ok (some (createNode cfg (.arrayLit mt elements) "ArrayPattern"
                [("elements", .nodes els)]), m2) := by
          simp [convertNode, registerMaps, hels, hpat, hsp]
        exact ⟨_, _, hconv, by rw [hspec, hpat]; rfl⟩
      | true =>
        have hconv : convertNode cfg anc none false (.arrayLit mt elements) m
            = .ok (some (createNode cfg (.arrayLit mt elements) "ArrayPattern"
                  [("elements", .nodes els)]),
                insertASTMaps m2 (TSNode.arrayLit mt elements).nodeId
                  (createNode cfg (.arrayLit mt elements) "ArrayPattern"
                    [("elements", .nodes els)])) := by
          simp [convertNode, registerMaps, hels, hpat, hsp]
        exact ⟨_, _, hconv, by rw [hspec, hpat]; rfl⟩
    | false =>
      cases hsp : cfg.additionalOptions.shouldProvideParserServices with
      | false =>
        have hconv : convertNode cfg anc none false (.arrayLit mt elements) m
            = .ok (some (createNode cfg (.arrayLit mt elements) "ArrayExpression"
                [("elements", .nodes els)]), m2) := by
          simp [convertNode, registerMaps, hels, hpat, hsp]
        exact ⟨_, _, hconv, by rw [hspec, hpat]; rfl⟩
      | true =>
        have hconv : convertNode cfg anc none false (.arrayLit mt elements) m
            = .ok (some (createNode cfg (.arrayLit mt elements) "ArrayExpression"
                  [("elements", .nodes els)]),
                insertASTMaps m2 (TSNode.arrayLit mt elements).nodeId
                  (createNode cfg (.arrayLit mt elements) "ArrayExpression"
                    [("elements", .nodes els)])) := by
          simp [convertNode, registerMaps, hels, hpat, hsp]
        exact ⟨_, _, hconv, by rw [hspec, hpat]; rfl⟩
  · rfl

theorem c1_array_literal_classification_witness :
    (plainState w1Code).additionalOptions.errorOnUnknownASTType = false
    ∧ ∃ t m2, convertNode (plainState w1Code) [w1Bin, w1Stmt, w1Sf] none false
          w1Arr ASTMaps.empty = .ok (some t, m2)
        ∧ t.type = (if specArrayPatternCond [w1Bin, w1Stmt, w1Sf] w1Arr
            then "ArrayPattern" else "ArrayExpression") :=
  ⟨rfl, c1_array_literal_classification.1 (plainState w1Code) [w1Bin, w1Stmt, w1Sf]
    ⟨2, ⟨0, 0, 3⟩⟩ [w1aIdent] ASTMaps.empty rfl⟩

/-- For input `for (x in [a]) y;` the literal `[a]` is the *iterated
expression*, not the iteration target, yet it converts to an `ArrayPattern`:
the code only checks that the immediate parent is a for-in statement.  The
claim's classification (iteration target only) is false on this input. -/
theorem c1_array_literal_classification_counterexample :
    (match convertNode (plainState c1Code) [c1ForIn, c1Sf] none false c1Arr
        ASTMaps.empty with
     | .ok (some t, _) => t.type = "ArrayPattern"
     | _ => False)
    ∧ c1ClaimPatternCond [c1ForIn, c1Sf] c1Arr = false := by
  exact ⟨rfl, rfl⟩

/-- A fallback tag (`TS` prefix) is never the sequence-expression tag. -/
theorem ts_prefix_ne_seq (s : String) :
    (("TS" ++ s) == "SequenceExpression") = false := by
  apply beq_eq_false_iff_ne.mpr
  intro h
  have hd : ("TS" ++ s).data = "SequenceExpression".data := congrArg String.data h
  rw [String.data_append] at hd
  have e1 : "TS".data = ['T', 'S'] := rfl
  have e2 : "SequenceExpression".data = 'S' :: "equenceExpression".data := rfl
  rw [e1, e2] at hd
  simp at hd

theorem noSeqL_cons (o : Option ESNode) (l : List (Option ESNode)) :
    noSeqL (o :: l) = (noSeqO o && noSeqL l) := by
  cases o <;> simp [noSeqL, noSeqO]

theorem noSeqL_append (l1 l2 : List (Option ESNode)) :
    noSeqL (l1 ++ l2) = (noSeqL l1 && noSeqL l2) := by
  induction l1 with
  | nil => simp [noSeqL]
  | cons h t ih => cases h <;> simp [noSeqL, ih, Bool.and_assoc]

theorem noSeqElems_append (l1 l2 : List (Option ESNode)) :
    noSeqElems (l1 ++ l2) = (noSeqElems l1 && noSeqElems l2) := by
  simp [noSeqElems, List.all_append]

theorem noSeqFs_append (f1 f2 : List (String × EVal)) :
    noSeqFs (f1 ++ f2) = (noSeqFs f1 && noSeqFs f2) := by
  induction f1 with
  | nil => simp [noSeqFs]
  | cons p t ih => obtain ⟨k, v⟩ := p; simp [noSeqFs, ih, Bool.and_assoc]

/-- The map-registration tail never changes the produced node. -/
theorem registerMaps_produced {cfg : ConverterState} {n : TSNode}
    {res : Except ConvError (Option ESNode × ASTMaps)} {r : Option ESNode}
    {m2 : ASTMaps} (h : registerMaps cfg n res = .ok (r, m2)) :
    ∃ m1, res = .ok (r, m1) := by
  cases res with
  | error e => simp [registerMaps] at h
  | ok p =>
    obtain ⟨result, m1⟩ := p
    refine ⟨m1, ?_⟩
    cases result with
    | some t =>
      cases hsp : cfg.additionalOptions.shouldProvideParserServices <;>
        simp [registerMaps, hsp] at h <;> rw [h.1]
    | none =>
      simp [registerMaps] at h
      rw [h.1]

theorem bool_and_split {a b : Bool} (h : (a && b) = true) : a = true ∧ b = true := by
  simp [Bool.and_eq_true] at h; exact h

/-- A field looked up on a flattening-invariant field list satisfies the
value-level invariant. -/
theorem noSeqFs_find? (fs : List (String × EVal)) (h : noSeqFs fs = true)
    (k : String) :
    ∀ kv, fs.find? (fun kv => kv.1 == k) = some kv → noSeqV kv.2 = true := by
  induction fs with
  | nil => intro kv hkv; simp at hkv
  | cons p rest ih =>
    intro kv hkv
    obtain ⟨k1, v1⟩ := p
    have h' : (noSeqV v1 && noSeqFs rest) = true := h
    obtain ⟨h1, h2⟩ := bool_and_split h'
    cases hk : (k1 == k) with
    | true =>
      simp only [List.find?, hk] at hkv
      cases hkv
      exact h1
    | false =>
      simp only [List.find?, hk] at hkv
      exact ih h2 kv hkv

/-- The spliced expressions of a flattening-invariant node satisfy the
list-level invariant. -/
theorem esSeqExpressions_noSeqL (t : ESNode) (h : noSeqE t = true) :
    noSeqL (esSeqExpressions t) = true := by
  obtain ⟨ty, r, ls, le, fs⟩ := t
  have h' : ((!(ty == "SequenceExpression") || seqElemsOk fs) && noSeqFs fs) = true := h
  obtain ⟨h1, h2⟩ := bool_and_split h'
  cases hfind : fs.find? (fun kv => kv.1 == "expressions") with
  | none =>
    have hg : esSeqExpressions (.mk ty r ls le fs) = [] := by
      simp [esSeqExpressions, ESNode.getField, ESNode.fields, hfind]
    rw [hg]; rfl
  | some kv =>
    obtain ⟨k1, v1⟩ := kv
    have hv : noSeqV v1 = true := noSeqFs_find? fs h2 "expressions" (k1, v1) hfind
    cases v1 with
    | nodes l =>
      have hg : esSeqExpressions (.mk ty r ls le fs) = l := by
        simp [esSeqExpressions, ESNode.getField, ESNode.fields, hfind]
      rw [hg]; exact hv
    | nullV =>
      have hg : esSeqExpressions (.mk ty r ls le fs) = [] := by
        simp [esSeqExpressions, ESNode.getField, ESNode.fields, hfind]
      rw [hg]; rfl
    | undefV =>
      have hg : esSeqExpressions (.mk ty r ls le fs) = [] := by
        simp [esSeqExpressions, ESNode.getField, ESNode.fields, hfind]
      rw [hg]; rfl
    | boolV b =>
      have hg : esSeqExpressions (.mk ty r ls le fs) = [] := by
        simp [esSeqExpressions, ESNode.getField, ESNode.fields, hfind]
      rw [hg]; rfl
    | str s2 =>
      have hg : esSeqExpressions (.mk ty r ls le fs) = [] := by
        simp [esSeqExpressions, ESNode.getField, ESNode.fields, hfind]
      rw [hg]; rfl
    | numV i =>
      have hg : esSeqExpressions (.mk ty r ls le fs) = [] := by
        simp [esSeqExpressions, ESNode.getField, ESNode.fields, hfind]
      rw [hg]; rfl
    | node e =>
      have hg : esSeqExpressions (.mk ty r ls le fs) = [] := by
        simp [esSeqExpressions, ESNode.getField, ESNode.fields, hfind]
      rw [hg]; rfl

/-- The spliced expressions of a flattening-invariant sequence expression
contain no sequence expression. -/
theorem esSeqExpressions_noSeqElems (t : ESNode) (h : noSeqE t = true)
    (hty : (t.type == "SequenceExpression") = true) :
    noSeqElems (esSeqExpressions t) = true := by
  obtain ⟨ty, r, ls, le, fs⟩ := t
  have h' : ((!(ty == "SequenceExpression") || seqElemsOk fs) && noSeqFs fs) = true := h
  obtain ⟨h1, h2⟩ := bool_and_split h'
  have hty' : (ty == "SequenceExpression") = true := hty
  have hok : seqElemsOk fs = true := by
    have h1' : (!(ty == "SequenceExpression")) = true ∨ seqElemsOk fs = true := by
      simp [Bool.or_eq_true] at h1; simpa using h1
    rcases h1' with hne | hok
    · rw [hty'] at hne; simp at hne
    · exact hok
  cases hfind : fs.find? (fun kv => kv.1 == "expressions") with
  | none =>
    have hg : esSeqExpressions (.mk ty r ls le fs) = [] := by
      simp [esSeqExpressions, ESNode.getField, ESNode.fields, hfind]
    rw [hg]; rfl
  | some kv =>
    obtain ⟨k1, v1⟩ := kv
    cases v1 with
    | nodes l =>
      have hg : esSeqExpressions (.mk ty r ls le fs) = l := by
        simp [esSeqExpressions, ESNode.getField, ESNode.fields, hfind]
      have hok' : noSeqElems l = true := by
        have : seqElemsOk fs = noSeqElems l := by
          simp [seqElemsOk, hfind]
        rw [← this]; exact hok
      rw [hg]; exact hok'
    | nullV =>
      have hg : esSeqExpressions (.mk ty r ls le fs) = [] := by
        simp [esSeqExpressions, ESNode.getField, ESNode.fields, hfind]
      rw [hg]; rfl
    | undefV =>
      have hg : esSeqExpressions (.mk ty r ls le fs) = [] := by
        simp [esSeqExpressions, ESNode.getField, ESNode.fields, hfind]
      rw [hg]; rfl
    | boolV b =>
      have hg : esSeqExpressions (.mk ty r ls le fs) = [] := by
        simp [esSeqExpressions, ESNode.getField, ESNode.fields, hfind]
      rw [hg]; rfl
    | str s2 =>
      have hg : esSeqExpressions (.mk ty r ls le fs) = [] := by
        simp [esSeqExpressions, ESNode.getField, ESNode.fields, hfind]
      rw [hg]; rfl
    | numV i =>
      have hg : esSeqExpressions (.mk ty r ls le fs) = [] := by
        simp [esSeqExpressions, ESNode.getField, ESNode.fields, hfind]
      rw [hg]; rfl
    | node e =>
      have hg : esSeqExpressions (.mk ty r ls le fs) = [] := by
        simp [esSeqExpressions, ESNode.getField, ESNode.fields, hfind]
      rw [hg]; rfl

/-- One splicing step preserves the list-level invariant. -/
theorem seqConcat_noSeqL (acc : List (Option ESNode)) (r : Option ESNode)
    (hacc : noSeqL acc = true) (hr : noSeqO r = true) :
    noSeqL (seqConcat acc r) = true := by
  cases r with
  | none => simp [seqConcat, noSeqL_append, hacc, noSeqL]
  | some t =>
    have ht : noSeqE t = true := hr
    cases hty : (t.type == "SequenceExpression") with
    | true =>
      simp [seqConcat, hty, noSeqL_append, hacc, esSeqExpressions_noSeqL t ht]
    | false => simp [seqConcat, hty, noSeqL_append, hacc, noSeqL, ht]

/-- One splicing step never pushes a nested sequence expression. -/
theorem seqConcat_noSeqElems (acc : List (Option ESNode)) (r : Option ESNode)
    (hacc : noSeqElems acc = true) (hr : noSeqO r = true) :
    noSeqElems (seqConcat acc r) = true := by
  cases r with
  | none =>
    rw [show seqConcat acc none = acc ++ [none] from rfl, noSeqElems_append, hacc]
    rfl
  | some t =>
    have ht : noSeqE t = true := hr
    cases hty : (t.type == "SequenceExpression") with
    | true =>
      have hs : seqConcat acc (some t) = acc ++ esSeqExpressions t := by
        simp [seqConcat, hty]
      rw [hs, noSeqElems_append, hacc, esSeqExpressions_noSeqElems t ht hty]
      rfl
    | false =>
      have hs : seqConcat acc (some t) = acc ++ [some t] := by
        simp [seqConcat, hty]
      rw [hs, noSeqElems_append, hacc]
      simp [noSeqElems, hty]

theorem noSeqFs_map_directive (s : String) (fs : List (String × EVal))
    (h : noSeqFs fs = true) :
    noSeqFs (fs.map (fun kv =>
      if kv.1 == "directive" then ("directive", EVal.str s) else kv)) = true := by
  induction fs with
  | nil => rfl
  | cons p rest ih =>
    obtain ⟨k1, v1⟩ := p
    have h' : (noSeqV v1 && noSeqFs rest) = true := h
    obtain ⟨h1, h2⟩ := bool_and_split h'
    rw [List.map_cons]
    cases hk : (k1 == "directive") with
    | true =>
      rw [if_pos rfl]
      show (noSeqV (EVal.str s) && noSeqFs (rest.map (fun kv =>
        if kv.1 == "directive" then ("directive", EVal.str s) else kv))) = true
      rw [ih h2]; rfl
    | false =>
      rw [if_neg (by simp)]
      show (noSeqV v1 && noSeqFs (rest.map (fun kv =>
        if kv.1 == "directive" then ("directive", EVal.str s) else kv))) = true
      rw [ih h2, h1]; rfl

theorem seqElemsOk_map_directive (s : String) (fs : List (String × EVal)) :
    seqElemsOk (fs.map (fun kv =>
      if kv.1 == "directive" then ("directive", EVal.str s) else kv))
      = seqElemsOk fs := by
  unfold seqElemsOk
  rw [List.find?_map]
  have hfun : ((fun kv => kv.1 == "expressions") ∘ (fun kv =>
      if kv.1 == "directive" then ("directive", EVal.str s) else kv))
      = (fun (kv : String × EVal) => kv.1 == "expressions") := by
    funext kv
    obtain ⟨k1, v1⟩ := kv
    by_cases hk : k1 = "directive"
    · subst hk; simp
    · simp [hk]
  rw [hfun]
  cases hfind : fs.find? (fun kv => kv.1 == "expressions") with
  | none => rfl
  | some kv =>
    obtain ⟨k1, v1⟩ := kv
    have hk1 : (k1 == "expressions") = true := by
      simpa using List.find?_some hfind
    have hk1' : k1 = "expressions" := by simpa using hk1
    subst hk1'
    simp

theorem seqElemsOk_append_directive (s : String) (fs : List (String × EVal)) :
    seqElemsOk (fs ++ [("directive", EVal.str s)]) = seqElemsOk fs := by
  induction fs with
  | nil => rfl
  | cons p rest ih =>
    obtain ⟨k1, v1⟩ := p
    cases hk : (k1 == "expressions") with
    | true =>
      simp only [seqElemsOk, List.cons_append, List.find?, hk]
    | false =>
      simp only [seqElemsOk, List.cons_append, List.find?, hk]
      exact ih

/-- Attaching a `directive` string to a produced node preserves the flattening
invariant. -/
theorem noSeqE_setField_directive (e : ESNode) (s : String)
    (h : noSeqE e = true) :
    noSeqE (e.setField "directive" (.str s)) = true := by
  obtain ⟨ty, r, ls, le, fs⟩ := e
  have h' : ((!(ty == "SequenceExpression") || seqElemsOk fs) && noSeqFs fs) = true := h
  obtain ⟨h1, h2⟩ := bool_and_split h'
  have hset : (ESNode.mk ty r ls le fs).setField "directive" (.str s)
      = (if fs.any (fun kv => kv.1 == "directive") then
          ESNode.mk ty r ls le (fs.map (fun kv =>
            if kv.1 == "directive" then ("directive", EVal.str s) else kv))
        else ESNode.mk ty r ls le (fs ++ [("directive", EVal.str s)])) := rfl
  cases hany : fs.any (fun kv => kv.1 == "directive") with
  | true =>
    rw [hset, if_pos hany]
    show ((!(ty == "SequenceExpression") || seqElemsOk (fs.map (fun kv =>
      if kv.1 == "directive" then ("directive", EVal.str s) else kv)))
      && noSeqFs (fs.map (fun kv =>
        if kv.1 == "directive" then ("directive", EVal.str s) else kv))) = true
    rw [seqElemsOk_map_directive, noSeqFs_map_directive s fs h2, h1]
    rfl
  | false =>
    rw [hset, if_neg (by simp [hany])]
    show ((!(ty == "SequenceExpression")
        || seqElemsOk (fs ++ [("directive", EVal.str s)]))
      && noSeqFs (fs ++ [("directive", EVal.str s)])) = true
    rw [seqElemsOk_append_directive, noSeqFs_append, h2, h1]
    rfl

/-- The directive pass preserves the flattening invariant of a body. -/
theorem directivePass_noSeqL (body : List (Option ESNode)) :
    ∀ unique, noSeqL body = true → noSeqL (directivePass unique body) = true := by
  induction body with
  | nil => intro unique h; exact h
  | cons child rest ih =>
    intro unique h
    have hsplit : noSeqO child = true ∧ noSeqL rest = true :=
      bool_and_split ((noSeqL_cons child rest) ▸ h)
    cases hc : isDirectiveCandidate child with
    | false =>
      have hstep : directivePass unique (child :: rest)
          = child :: directivePass unique rest := by
        simp [directivePass, hc]
      rw [hstep, noSeqL_cons, hsplit.1, ih unique hsplit.2]
      rfl
    | true =>
      cases child with
      | none => simp [isDirectiveCandidate] at hc
      | some c =>
        cases hraw : directiveRaw (some c) with
        | none =>
          have hstep : directivePass unique (some c :: rest)
              = some c :: directivePass unique rest := by
            simp [directivePass, hc, hraw]
          rw [hstep, noSeqL_cons, hsplit.1, ih unique hsplit.2]
          rfl
        | some raw =>
          by_cases hm : raw ∈ unique
          · have hstep : directivePass unique (some c :: rest)
                = some c :: directivePass unique rest := by
              simp [directivePass, hc, hraw, hm]
            rw [hstep, noSeqL_cons, hsplit.1, ih unique hsplit.2]
            rfl
          · have hstep : directivePass unique (some c :: rest)
                = some (c.setField "directive" (.str (sliceQuotes raw)))
                  :: directivePass (unique ++ [raw]) rest := by
              simp [directivePass, hc, hraw, hm]
            rw [hstep, noSeqL_cons, ih (unique ++ [raw]) hsplit.2]
            have hce : noSeqE c = true := hsplit.1
            rw [show noSeqO (some (c.setField "directive" (.str (sliceQuotes raw))))
                = noSeqE (c.setField "directive" (.str (sliceQuotes raw))) from rfl,
              noSeqE_setField_directive c (sliceQuotes raw) hce]
            rfl

/-- Re-tagging directives preserves the flattening invariant of a body. -/
theorem convertBodyExpressionsToDirectives_noSeqL (node : TSNode)
    (body : List (Option ESNode)) (h : noSeqL body = true) :
    noSeqL (convertBodyExpressionsToDirectives node body) = true := by
  unfold convertBodyExpressionsToDirectives
  cases hcan : canContainDirective node with
  | true => rw [if_pos rfl]; exact directivePass_noSeqL body [] h
  | false => rw [if_neg (by simp)]; exact h

/-- Dropping null statements and re-wrapping preserves the invariant. -/
theorem noSeqL_filterMap_some (l : List (Option ESNode)) (h : noSeqL l = true) :
    noSeqL ((l.filterMap id).map some) = true := by
  induction l with
  | nil => rfl
  | cons o t ih =>
    cases o with
    | none =>
      rw [show (((none :: t).filterMap id).map some) = (t.filterMap id).map some from
        by simp [List.filterMap_cons]]
      exact ih h
    | some e =>
      have hsplit : noSeqE e = true ∧ noSeqL t = true := bool_and_split h
      rw [show (((some e :: t).filterMap id).map some)
          = some e :: (t.filterMap id).map some from by simp [List.filterMap_cons]]
      rw [noSeqL_cons, ih hsplit.2]
      have : noSeqO (some e) = noSeqE e := rfl
      rw [this, hsplit.1]
      rfl

theorem noSeqV_optNodeVal (r : Option ESNode) : noSeqV (optNodeVal r) = noSeqO r := by
  cases r <;> rfl

theorem noSeqO_createNode (cfg : ConverterState) (n : TSNode) (ty : String)
    (fields : List (String × EVal))
    (hty : (ty == "SequenceExpression") = false ∨ seqElemsOk fields = true)
    (hfs : noSeqFs fields = true) :
    noSeqO (some (createNode cfg n ty fields)) = true := by
  show ((!(ty == "SequenceExpression") || seqElemsOk fields) && noSeqFs fields) = true
  rcases hty with h | h
  · rw [h, hfs]; rfl
  · rw [h, hfs]; simp [Bool.or_true]

theorem getBinaryExpressionType_ne_seq (tok : Tok) :
    (getBinaryExpressionType tok == "SequenceExpression") = false := by
  unfold getBinaryExpressionType
  cases h1 : isAssignmentOperator tok.kind <;>
    cases h2 : isLogicalOperator tok.kind <;> simp [h1, h2]

theorem ok_fst {γ α β : Type} {a r : α} {b m : β}
    (h : (Except.ok (a, b) : Except γ (α × β)) = .ok (r, m)) : r = a := by
  injection h with h2
  exact (congrArg Prod.fst h2).symm

theorem noSeqO_mkNode (ty : String) (rg : Nat × Nat) (la lb : Loc)
    (fields : List (String × EVal))
    (hty : (ty == "SequenceExpression") = false ∨ seqElemsOk fields = true)
    (hfs : noSeqFs fields = true) :
    noSeqO (some (ESNode.mk ty rg la lb fields)) = true := by
  show ((!(ty == "SequenceExpression") || seqElemsOk fields) && noSeqFs fields) = true
  rcases hty with h | h
  · rw [h, hfs]; rfl
  · rw [h, hfs]; simp [Bool.or_true]

theorem noSeqFs_single (k : String) (v : EVal) (h : noSeqV v = true) :
    noSeqFs [(k, v)] = true := by
  show (noSeqV v && noSeqFs []) = true
  rw [h]; rfl


/-- Outcome shapes of one `deeplyCopy` field: nothing, a single scalar entry,
a converted child (possibly inside a `TSTypeAnnotation` wrapper), a converted
node array (possibly inside a type-parameter wrapper), or converted
decorators. -/
theorem convertFieldEntry_node_cases (cfg : ConverterState) (anc : List TSNode)
    (node : TSNode) (key : String) (child : TSNode) (m : ASTMaps)
    (entry : List (String × EVal)) (m2 : ASTMaps)
    (h : convertFieldEntry cfg anc node key (.node child) m = .ok (entry, m2)) :
    (∃ k, entry = [(k, EVal.nullV)]) ∨ entry = []
    ∨ (∃ b rc mc, convertNode cfg anc none b child m = .ok (rc, mc)
        ∧ (entry = [(key, optNodeVal rc)]
           ∨ ∃ rg la lb, entry = [("typeAnnotation",
               EVal.node (ESNode.mk "TSTypeAnnotation" rg la lb
                 [("typeAnnotation", optNodeVal rc)]))])) := by
  simp only [convertFieldEntry] at h
  split at h
  · split at h
    · exact Except.noConfusion h
    · next rc mc heq =>
      have hfst := ok_fst h
      exact Or.inr (Or.inr ⟨true, rc, mc, heq, Or.inr ⟨_, _, _, hfst⟩⟩)
  · split at h
    · have hfst := ok_fst h
      exact Or.inl ⟨"typeParameters", hfst⟩
    · split at h
      · have hfst := ok_fst h
        exact Or.inl ⟨"typeParameters", hfst⟩
      · split at h
        · have hfst := ok_fst h
          exact Or.inr (Or.inl hfst)
        · split at h
          · exact Except.noConfusion h
          · next rc mc heq =>
            have hfst := ok_fst h
            exact Or.inr (Or.inr ⟨false, rc, mc, heq, Or.inl hfst⟩)

theorem convertFieldEntry_nodes_cases (cfg : ConverterState) (anc : List TSNode)
    (node : TSNode) (key : String) (pos endP : Nat) (l : List TSNode) (m : ASTMaps)
    (entry : List (String × EVal)) (m2 : ASTMaps)
    (h : convertFieldEntry cfg anc node key (.nodes pos endP l) m = .ok (entry, m2)) :
    (∃ k, entry = [(k, EVal.nullV)]) ∨ entry = []
    ∨ (∃ b rs mc, convertList cfg anc b l m = .ok (rs, mc)
        ∧ (entry = [(key, EVal.nodes rs)]
           ∨ ∃ ty rg la lb, entry = [("typeParameters",
               EVal.node (ESNode.mk ty rg la lb [("params", EVal.nodes rs)]))]
             ∧ (ty == "SequenceExpression") = false))
    ∨ (∃ rs mc, convertDecorators cfg anc l m = .ok (rs, mc)
        ∧ entry = [("decorators", EVal.nodes (rs.map some))]) := by
  cases l with
  | cons d dsx =>
    simp only [convertFieldEntry] at h
    split at h
    · have hfst := ok_fst h
      exact Or.inl ⟨"typeAnnotation", hfst⟩
    · split at h
      · split at h
        · exact Except.noConfusion h
        · next rs mc heq =>
          have hfst := ok_fst h
          exact Or.inr (Or.inr (Or.inl ⟨true, rs, mc, heq,
            Or.inr ⟨"TSTypeParameterInstantiation", _, _, _, hfst, rfl⟩⟩))
      · split at h
        · split at h
          · exact Except.noConfusion h
          · next rs mc heq =>
            have hfst := ok_fst h
            exact Or.inr (Or.inr (Or.inl ⟨true, rs, mc, heq,
              Or.inr ⟨"TSTypeParameterDeclaration", _, _, _, hfst, rfl⟩⟩))
        · split at h
          · split at h
            · exact Except.noConfusion h
            · next rs mc heq =>
              split at h
              · have hfst := ok_fst h
                exact Or.inr (Or.inl hfst)
              · have hfst := ok_fst h
                exact Or.inr (Or.inr (Or.inr ⟨rs, mc, heq, hfst⟩))
          · split at h
            · exact Except.noConfusion h
            · next rs mc heq =>
              have hfst := ok_fst h
              exact Or.inr (Or.inr (Or.inl ⟨false, rs, mc, heq, Or.inl hfst⟩))
  | nil =>
    simp only [convertFieldEntry] at h
    split at h
    · have hfst := ok_fst h
      exact Or.inl ⟨"typeAnnotation", hfst⟩
    · split at h
      · split at h
        · exact Except.noConfusion h
        · next rs mc heq =>
          have hfst := ok_fst h
          exact Or.inr (Or.inr (Or.inl ⟨true, rs, mc, heq,
            Or.inr ⟨"TSTypeParameterInstantiation", _, _, _, hfst, rfl⟩⟩))
      · split at h
        · split at h
          · exact Except.noConfusion h
          · next rs mc heq =>
            have hfst := ok_fst h
            exact Or.inr (Or.inr (Or.inl ⟨true, rs, mc, heq,
              Or.inr ⟨"TSTypeParameterDeclaration", _, _, _, hfst, rfl⟩⟩))
        · split at h
          · have hfst := ok_fst h
            exact Or.inr (Or.inl hfst)
          · split at h
            · exact Except.noConfusion h
            · next rs mc heq =>
              have hfst := ok_fst h
              exact Or.inr (Or.inr (Or.inl ⟨false, rs, mc, heq, Or.inl hfst⟩))

/-- A scalar field copy always yields a flattening-invariant entry list. -/
theorem convertFieldEntry_scalar_noSeq (cfg : ConverterState) (anc : List TSNode)
    (node : TSNode) (key : String) (v : TSVal) (m : ASTMaps)
    (hv : (match v with
      | TSVal.node _ => False
      | TSVal.nodes _ _ _ => False
      | _ => True))
    (entry : List (String × EVal)) (m2 : ASTMaps)
    (h : convertFieldEntry cfg anc node key v m = .ok (entry, m2)) :
    noSeqFs entry = true := by
  cases v with
  | node child => exact absurd hv (by simp)
  | nodes pos endP l => exact absurd hv (by simp)
  | str s2 =>
    simp only [convertFieldEntry] at h
    split at h
    · have hfst := ok_fst h
      rw [hfst]; rfl
    · split at h
      · have hfst := ok_fst h
        rw [hfst]; rfl
      · split at h
        · have hfst := ok_fst h
          rw [hfst]; rfl
        · split at h
          · have hfst := ok_fst h
            rw [hfst]; rfl
          · have hfst := ok_fst h
            rw [hfst]; rfl
  | boolV b =>
    simp only [convertFieldEntry] at h
    split at h
    · have hfst := ok_fst h
      rw [hfst]; rfl
    · split at h
      · have hfst := ok_fst h
        rw [hfst]; rfl
      · split at h
        · have hfst := ok_fst h
          rw [hfst]; rfl
        · split at h
          · have hfst := ok_fst h
            rw [hfst]; rfl
          · have hfst := ok_fst h
            rw [hfst]; rfl
  | numV i =>
    simp only [convertFieldEntry] at h
    split at h
    · have hfst := ok_fst h
      rw [hfst]; rfl
    · split at h
      · have hfst := ok_fst h
        rw [hfst]; rfl
      · split at h
        · have hfst := ok_fst h
          rw [hfst]; rfl
        · split at h
          · have hfst := ok_fst h
            rw [hfst]; rfl
          · have hfst := ok_fst h
            rw [hfst]; rfl
  | undef =>
    simp only [convertFieldEntry] at h
    split at h
    · have hfst := ok_fst h
      rw [hfst]; rfl
    · split at h
      · have hfst := ok_fst h
        rw [hfst]; rfl
      · split at h
        · have hfst := ok_fst h
          rw [hfst]; rfl
        · split at h
          · have hfst := ok_fst h
            rw [hfst]; rfl
          · have hfst := ok_fst h
            rw [hfst]; rfl


/-- One step of `convertDecorators`: the head contributes a `Decorator`
wrapper around its converted expression (or around `null` for a non-decorator
entry), and the rest is converted recursively. -/
theorem convertDecorators_cons_cases (cfg : ConverterState) (anc : List TSNode)
    (d : TSNode) (rest : List TSNode) (m : ASTMaps) (ds : List ESNode)
    (m2 : ASTMaps)
    (h : convertDecorators cfg anc (d :: rest) m = .ok (ds, m2)) :
    ∃ r mc ds2 mc2,
      convertDecorators cfg anc rest mc = .ok (ds2, mc2)
      ∧ ds = createNode cfg d "Decorator" [("expression", optNodeVal r)] :: ds2
      ∧ (r = none ∨ ∃ mt expression, d = TSNode.decorator mt expression
          ∧ convertNode cfg anc none false expression m = .ok (r, mc)) := by
  cases d with
  | decorator mt expression =>
    simp only [convertDecorators] at h
    split at h
    · exact Except.noConfusion h
    · next r mc heq =>
      split at h
      · exact Except.noConfusion h
      · next ds2 mc2 heq2 =>
        have hfst := ok_fst h
        exact ⟨r, mc, ds2, mc2, heq2, hfst, Or.inr ⟨mt, expression, rfl, heq⟩⟩
  | sourceFile a b c dd e =>
    simp only [convertDecorators] at h
    split at h
    · exact Except.noConfusion h
    · next ds2 mc2 heq2 =>
      have hfst := ok_fst h
      exact ⟨none, m, ds2, mc2, heq2, hfst, Or.inl rfl⟩
  | exprStmt a b =>
    simp only [convertDecorators] at h
    split at h
    · exact Except.noConfusion h
    · next ds2 mc2 heq2 =>
      have hfst := ok_fst h
      exact ⟨none, m, ds2, mc2, heq2, hfst, Or.inl rfl⟩
  | returnStmt a b =>
    simp only [convertDecorators] at h
    split at h
    · exact Except.noConfusion h
    · next ds2 mc2 heq2 =>
      have hfst := ok_fst h
      exact ⟨none, m, ds2, mc2, heq2, hfst, Or.inl rfl⟩
  | identifier a b =>
    simp only [convertDecorators] at h
    split at h
    · exact Except.noConfusion h
    · next ds2 mc2 heq2 =>
      have hfst := ok_fst h
      exact ⟨none, m, ds2, mc2, heq2, hfst, Or.inl rfl⟩
  | stringLit a b =>
    simp only [convertDecorators] at h
    split at h
    · exact Except.noConfusion h
    · next ds2 mc2 heq2 =>
      have hfst := ok_fst h
      exact ⟨none, m, ds2, mc2, heq2, hfst, Or.inl rfl⟩
  | bigIntLit a =>
    simp only [convertDecorators] at h
    split at h
    · exact Except.noConfusion h
    · next ds2 mc2 heq2 =>
      have hfst := ok_fst h
      exact ⟨none, m, ds2, mc2, heq2, hfst, Or.inl rfl⟩
  | arrayLit a b =>
    simp only [convertDecorators] at h
    split at h
    · exact Except.noConfusion h
    · next ds2 mc2 heq2 =>
      have hfst := ok_fst h
      exact ⟨none, m, ds2, mc2, heq2, hfst, Or.inl rfl⟩
  | binaryExpr a b c dd =>
    simp only [convertDecorators] at h
    split at h
    · exact Except.noConfusion h
    · next ds2 mc2 heq2 =>
      have hfst := ok_fst h
      exact ⟨none, m, ds2, mc2, heq2, hfst, Or.inl rfl⟩
  | callExpr a b c =>
    simp only [convertDecorators] at h
    split at h
    · exact Except.noConfusion h
    · next ds2 mc2 heq2 =>
      have hfst := ok_fst h
      exact ⟨none, m, ds2, mc2, heq2, hfst, Or.inl rfl⟩
  | paren a b =>
    simp only [convertDecorators] at h
    split at h
    · exact Except.noConfusion h
    · next ds2 mc2 heq2 =>
      have hfst := ok_fst h
      exact ⟨none, m, ds2, mc2, heq2, hfst, Or.inl rfl⟩
  | forIn a b c dd =>
    simp only [convertDecorators] at h
    split at h
    · exact Except.noConfusion h
    · next ds2 mc2 heq2 =>
      have hfst := ok_fst h
      exact ⟨none, m, ds2, mc2, heq2, hfst, Or.inl rfl⟩
  | forOf a b c dd e =>
    simp only [convertDecorators] at h
    split at h
    · exact Except.noConfusion h
    · next ds2 mc2 heq2 =>
      have hfst := ok_fst h
      exact ⟨none, m, ds2, mc2, heq2, hfst, Or.inl rfl⟩
  | unknown a b c =>
    simp only [convertDecorators] at h
    split at h
    · exact Except.noConfusion h
    · next ds2 mc2 heq2 =>
      have hfst := ok_fst h
      exact ⟨none, m, ds2, mc2, heq2, hfst, Or.inl rfl⟩

mutual
/-- Every node produced by the conversion engine satisfies the sequence
flattening invariant. -/
theorem convertNode_noSeq (cfg : ConverterState) (anc : List TSNode)
    (parentOv : Option TSNode) (inTypeMode : Bool) (n : TSNode) (m : ASTMaps) :
    ∀ r m2, convertNode cfg anc parentOv inTypeMode n m = .ok (r, m2) →
      noSeqO r = true := by
  cases n with
  | sourceFile mt statements endOfFileEnd moduleInd pd =>
    intro r m2 h
    simp only [convertNode] at h
    obtain ⟨m1, hbody⟩ := registerMaps_produced h
    cases hsub : convertList cfg
        (TSNode.sourceFile mt statements endOfFileEnd moduleInd pd :: anc)
        false statements m with
    | error err =>
      simp only [hsub] at hbody
      exact Except.noConfusion (show (Except.error err :
        Except ConvError (Option ESNode × ASTMaps)) = .ok (r, m1) from hbody)
    | ok p =>
      obtain ⟨stmts, mc⟩ := p
      simp only [hsub] at hbody
      have hfst := ok_fst hbody
      have hstL : noSeqL stmts = true :=
        convertList_noSeq cfg
          (TSNode.sourceFile mt statements endOfFileEnd moduleInd pd :: anc)
          false statements m stmts mc hsub
      have hbodyL : noSeqL (convertBodyExpressionsToDirectives
          (TSNode.sourceFile mt statements endOfFileEnd moduleInd pd)
          ((stmts.filterMap id).map some)) = true :=
        convertBodyExpressionsToDirectives_noSeqL _ _ (noSeqL_filterMap_some _ hstL)
      rw [hfst]
      apply noSeqO_mkNode
      · left; rfl
      · simp only [noSeqFs, noSeqV, hbodyL, Bool.true_and, Bool.and_true]
  | exprStmt mt expression =>
    intro r m2 h
    simp only [convertNode] at h
    obtain ⟨m1, hbody⟩ := registerMaps_produced h
    cases hsub : convertNode cfg (TSNode.exprStmt mt expression :: anc)
        none false expression m with
    | error err =>
      simp only [hsub] at hbody
      exact Except.noConfusion (show (Except.error err :
        Except ConvError (Option ESNode × ASTMaps)) = .ok (r, m1) from hbody)
    | ok p =>
      obtain ⟨rc, mc⟩ := p
      simp only [hsub] at hbody
      have hfst := ok_fst hbody
      have hc : noSeqO rc = true :=
        convertNode_noSeq cfg (TSNode.exprStmt mt expression :: anc)
          none false expression m rc mc hsub
      rw [hfst]
      apply noSeqO_createNode
      · left; rfl
      · exact noSeqFs_single _ _ (by rw [noSeqV_optNodeVal]; exact hc)
  | returnStmt mt expression =>
    cases expression with
    | none =>
      intro r m2 h
      simp only [convertNode] at h
      obtain ⟨m1, hbody⟩ := registerMaps_produced h
      have hfst := ok_fst hbody
      rw [hfst]
      apply noSeqO_createNode
      · left; rfl
      · rfl
    | some c =>
      intro r m2 h
      simp only [convertNode] at h
      obtain ⟨m1, hbody⟩ := registerMaps_produced h
      cases hsub : convertNode cfg (TSNode.returnStmt mt (some c) :: anc)
          none false c m with
      | error err =>
        simp only [hsub] at hbody
        exact Except.noConfusion (show (Except.error err :
          Except ConvError (Option ESNode × ASTMaps)) = .ok (r, m1) from hbody)
      | ok p =>
        obtain ⟨rc, mc⟩ := p
        simp only [hsub] at hbody
        have hfst := ok_fst hbody
        have hc : noSeqO rc = true :=
          convertNode_noSeq cfg (TSNode.returnStmt mt (some c) :: anc)
            none false c m rc mc hsub
        rw [hfst]
        apply noSeqO_createNode
        · left; rfl
        · exact noSeqFs_single _ _ (by rw [noSeqV_optNodeVal]; exact hc)
  | identifier mt text =>
    intro r m2 h
    simp only [convertNode] at h
    obtain ⟨m1, hbody⟩ := registerMaps_produced h
    have hfst := ok_fst hbody
    rw [hfst]
    apply noSeqO_createNode
    · left; rfl
    · rfl
  | stringLit mt text =>
    intro r m2 h
    simp only [convertNode] at h
    obtain ⟨m1, hbody⟩ := registerMaps_produced h
    have hfst := ok_fst hbody
    rw [hfst]
    apply noSeqO_createNode
    · left; rfl
    · rfl
  | bigIntLit mt =>
    intro r m2 h
    simp only [convertNode] at h
    obtain ⟨m1, hbody⟩ := registerMaps_produced h
    have hfst := ok_fst hbody
    rw [hfst]
    apply noSeqO_createNode
    · left; rfl
    · rfl
  | arrayLit mt elements =>
    intro r m2 h
    simp only [convertNode] at h
    obtain ⟨m1, hbody⟩ := registerMaps_produced h
    cases hsub : convertList cfg (TSNode.arrayLit mt elements :: anc)
        false elements m with
    | error err =>
      simp only [hsub] at hbody
      exact Except.noConfusion (show (Except.error err :
        Except ConvError (Option ESNode × ASTMaps)) = .ok (r, m1) from hbody)
    | ok p =>
      obtain ⟨els, mc⟩ := p
      simp only [hsub] at hbody
      have hels : noSeqL els = true :=
        convertList_noSeq cfg (TSNode.arrayLit mt elements :: anc)
          false elements m els mc hsub
      cases hpat : arrayLiteralIsPattern anc (TSNode.arrayLit mt elements) with
      | true =>
        rw [hpat] at hbody
        have hfst := ok_fst hbody
        rw [hfst]
        apply noSeqO_createNode
        · left; rfl
        · exact noSeqFs_single _ _ hels
      | false =>
        rw [hpat] at hbody
        have hfst := ok_fst hbody
        rw [hfst]
        apply noSeqO_createNode
        · left; rfl
        · exact noSeqFs_single _ _ hels
  | binaryExpr mt operatorToken left right =>
    intro r m2 h
    simp only [convertNode] at h
    obtain ⟨m1, hbody⟩ := registerMaps_produced h
    cases hcomma : isComma operatorToken with
    | true =>
      rw [hcomma] at hbody
      cases hsub : convertNode cfg
          (TSNode.binaryExpr mt operatorToken left right :: anc)
          none false left m with
      | error err =>
        simp only [hsub] at hbody
        exact Except.noConfusion (show (Except.error err :
          Except ConvError (Option ESNode × ASTMaps)) = .ok (r, m1) from hbody)
      | ok p =>
        obtain ⟨leftR, mc⟩ := p
        simp only [hsub] at hbody
        have hL : noSeqO leftR = true :=
          convertNode_noSeq cfg (TSNode.binaryExpr mt operatorToken left right :: anc)
            none false left m leftR mc hsub
        cases hsub2 : convertNode cfg
            (TSNode.binaryExpr mt operatorToken left right :: anc)
            none false right mc with
        | error err =>
          simp only [hsub2] at hbody
          exact Except.noConfusion (show (Except.error err :
            Except ConvError (Option ESNode × ASTMaps)) = .ok (r, m1) from hbody)
        | ok p2 =>
          obtain ⟨rightR, mc2⟩ := p2
          simp only [hsub2] at hbody
          have hR : noSeqO rightR = true :=
            convertNode_noSeq cfg
              (TSNode.binaryExpr mt operatorToken left right :: anc)
              none false right mc rightR mc2 hsub2
          have hfst := ok_fst hbody
          rw [hfst]
          apply noSeqO_createNode
          · right
            show noSeqElems (seqConcat (seqConcat [] leftR) rightR) = true
            exact seqConcat_noSeqElems _ _ (seqConcat_noSeqElems [] leftR rfl hL) hR
          · exact noSeqFs_single _ _
              (seqConcat_noSeqL _ _ (seqConcat_noSeqL [] leftR rfl hL) hR)
    | false =>
      rw [hcomma] at hbody
      cases hsub : convertNode cfg
          (TSNode.binaryExpr mt operatorToken left right :: anc)
          none false left m with
      | error err =>
        simp only [hsub] at hbody
        exact Except.noConfusion (show (Except.error err :
          Except ConvError (Option ESNode × ASTMaps)) = .ok (r, m1) from hbody)
      | ok p =>
        obtain ⟨leftR, mc⟩ := p
        simp only [hsub] at hbody
        have hL : noSeqO leftR = true :=
          convertNode_noSeq cfg (TSNode.binaryExpr mt operatorToken left right :: anc)
            none false left m leftR mc hsub
        cases hsub2 : convertNode cfg
            (TSNode.binaryExpr mt operatorToken left right :: anc)
            none false right mc with
        | error err =>
          simp only [hsub2] at hbody
          exact Except.noConfusion (show (Except.error err :
            Except ConvError (Option ESNode × ASTMaps)) = .ok (r, m1) from hbody)
        | ok p2 =>
          obtain ⟨rightR, mc2⟩ := p2
          simp only [hsub2] at hbody
          have hR : noSeqO rightR = true :=
            convertNode_noSeq cfg
              (TSNode.binaryExpr mt operatorToken left right :: anc)
              none false right mc rightR mc2 hsub2
          have hfields : ∀ opstr : String,
              noSeqFs [("operator", EVal.str opstr),
                ("left", optNodeVal leftR), ("right", optNodeVal rightR)] = true := by
            intro opstr
            simp only [noSeqFs, noSeqV, noSeqV_optNodeVal, hL, hR,
              Bool.true_and, Bool.and_true]
          cases hty : (getBinaryExpressionType operatorToken == "AssignmentExpression") with
          | true =>
            rw [hty] at hbody
            cases hdes : assignmentIsInDestructuredTarget anc with
            | true =>
              rw [hdes] at hbody
              have hfst := ok_fst hbody
              rw [hfst]
              apply noSeqO_createNode
              · left; rfl
              · simp only [noSeqFs, noSeqV_optNodeVal, hL, hR,
                  Bool.true_and, Bool.and_true]
            | false =>
              rw [hdes] at hbody
              have hfst := ok_fst hbody
              rw [hfst]
              apply noSeqO_createNode
              · left; exact getBinaryExpressionType_ne_seq operatorToken
              · exact hfields _
          | false =>
            rw [hty] at hbody
            have hfst := ok_fst hbody
            rw [hfst]
            apply noSeqO_createNode
            · left; exact getBinaryExpressionType_ne_seq operatorToken
            · exact hfields _
  | callExpr mt expression arguments =>
    intro r m2 h
    simp only [convertNode] at h
    obtain ⟨m1, hbody⟩ := registerMaps_produced h
    cases hsub : convertNode cfg (TSNode.callExpr mt expression arguments :: anc)
        none false expression m with
    | error err =>
      simp only [hsub] at hbody
      exact Except.noConfusion (show (Except.error err :
        Except ConvError (Option ESNode × ASTMaps)) = .ok (r, m1) from hbody)
    | ok p =>
      obtain ⟨calleeR, mc⟩ := p
      simp only [hsub] at hbody
      have hc : noSeqO calleeR = true :=
        convertNode_noSeq cfg (TSNode.callExpr mt expression arguments :: anc)
          none false expression m calleeR mc hsub
      cases hsub2 : convertList cfg (TSNode.callExpr mt expression arguments :: anc)
          false arguments mc with
      | error err =>
        simp only [hsub2] at hbody
        exact Except.noConfusion (show (Except.error err :
          Except ConvError (Option ESNode × ASTMaps)) = .ok (r, m1) from hbody)
      | ok p2 =>
        obtain ⟨args, mc2⟩ := p2
        simp only [hsub2] at hbody
        have ha : noSeqL args = true :=
          convertList_noSeq cfg (TSNode.callExpr mt expression arguments :: anc)
            false arguments mc args mc2 hsub2
        have hfst := ok_fst hbody
        rw [hfst]
        apply noSeqO_createNode
        · left; rfl
        · simp only [noSeqFs, noSeqV, noSeqV_optNodeVal, hc, ha,
            Bool.true_and, Bool.and_true]
  | paren mt expression =>
    intro r m2 h
    simp only [convertNode] at h
    obtain ⟨m1, hbody⟩ := registerMaps_produced h
    exact convertNode_noSeq cfg (TSNode.paren mt expression :: anc)
      _ false expression m r m1 hbody
  | forIn mt ini expr stmt =>
    intro r m2 h
    simp only [convertNode] at h
    obtain ⟨m1, hbody⟩ := registerMaps_produced h
    cases hsub : convertNode cfg (TSNode.forIn mt ini expr stmt :: anc)
        none false ini m with
    | error err =>
      simp only [hsub] at hbody
      exact Except.noConfusion (show (Except.error err :
        Except ConvError (Option ESNode × ASTMaps)) = .ok (r, m1) from hbody)
    | ok p =>
      obtain ⟨iniR, mc⟩ := p
      simp only [hsub] at hbody
      have h1 : noSeqO iniR = true :=
        convertNode_noSeq cfg (TSNode.forIn mt ini expr stmt :: anc)
          none false ini m iniR mc hsub
      cases hsub2 : convertNode cfg (TSNode.forIn mt ini expr stmt :: anc)
          none false expr mc with
      | error err =>
        simp only [hsub2] at hbody
        exact Except.noConfusion (show (Except.error err :
          Except ConvError (Option ESNode × ASTMaps)) = .ok (r, m1) from hbody)
      | ok p2 =>
        obtain ⟨exprR, mc2⟩ := p2
        simp only [hsub2] at hbody
        have h2 : noSeqO exprR = true :=
          convertNode_noSeq cfg (TSNode.forIn mt ini expr stmt :: anc)
            none false expr mc exprR mc2 hsub2
        cases hsub3 : convertNode cfg (TSNode.forIn mt ini expr stmt :: anc)
            none false stmt mc2 with
        | error err =>
          simp only [hsub3] at hbody
          exact Except.noConfusion (show (Except.error err :
            Except ConvError (Option ESNode × ASTMaps)) = .ok (r, m1) from hbody)
        | ok p3 =>
          obtain ⟨stmtR, mc3⟩ := p3
          simp only [hsub3] at hbody
          have h3 : noSeqO stmtR = true :=
            convertNode_noSeq cfg (TSNode.forIn mt ini expr stmt :: anc)
              none false stmt mc2 stmtR mc3 hsub3
          have hfst := ok_fst hbody
          rw [hfst]
          apply noSeqO_createNode
          · left; rfl
          · simp only [noSeqFs, noSeqV_optNodeVal, h1, h2, h3,
              Bool.true_and, Bool.and_true]
  | forOf mt ini expr stmt awaitModifier =>
    intro r m2 h
    simp only [convertNode] at h
    obtain ⟨m1, hbody⟩ := registerMaps_produced h
    cases hsub : convertNode cfg (TSNode.forOf mt ini expr stmt awaitModifier :: anc)
        none false ini m with
    | error err =>
      simp only [hsub] at hbody
      exact Except.noConfusion (show (Except.error err :
        Except ConvError (Option ESNode × ASTMaps)) = .ok (r, m1) from hbody)
    | ok p =>
      obtain ⟨iniR, mc⟩ := p
      simp only [hsub] at hbody
      have h1 : noSeqO iniR = true :=
        convertNode_noSeq cfg (TSNode.forOf mt ini expr stmt awaitModifier :: anc)
          none false ini m iniR mc hsub
      cases hsub2 : convertNode cfg (TSNode.forOf mt ini expr stmt awaitModifier :: anc)
          none false expr mc with
      | error err =>
        simp only [hsub2] at hbody
        exact Except.noConfusion (show (Except.error err :
          Except ConvError (Option ESNode × ASTMaps)) = .ok (r, m1) from hbody)
      | ok p2 =>
        obtain ⟨exprR, mc2⟩ := p2
        simp only [hsub2] at hbody
        have h2 : noSeqO exprR = true :=
          convertNode_noSeq cfg (TSNode.forOf mt ini expr stmt awaitModifier :: anc)
            none false expr mc exprR mc2 hsub2
        cases hsub3 : convertNode cfg
            (TSNode.forOf mt ini expr stmt awaitModifier :: anc)
            none false stmt mc2 with
        | error err =>
          simp only [hsub3] at hbody
          exact Except.noConfusion (show (Except.error err :
            Except ConvError (Option ESNode × ASTMaps)) = .ok (r, m1) from hbody)
        | ok p3 =>
          obtain ⟨stmtR, mc3⟩ := p3
          simp only [hsub3] at hbody
          have h3 : noSeqO stmtR = true :=
            convertNode_noSeq cfg (TSNode.forOf mt ini expr stmt awaitModifier :: anc)
              none false stmt mc2 stmtR mc3 hsub3
          have hfst := ok_fst hbody
          rw [hfst]
          apply noSeqO_createNode
          · left; rfl
          · simp only [noSeqFs, noSeqV, noSeqV_optNodeVal, h1, h2, h3,
              Bool.true_and, Bool.and_true]
  | decorator mt expression =>
    intro r m2 h
    simp only [convertNode] at h
    obtain ⟨m1, hbody⟩ := registerMaps_produced h
    cases hcond : (cfg.additionalOptions.errorOnUnknownASTType &&
        !(astNodeTypes.contains
          ("TS" ++ (TSNode.decorator mt expression).kindName))) with
    | true =>
      rw [hcond] at hbody
      exact Except.noConfusion (show (Except.error (ConvError.unknownASTType
        ("TS" ++ (TSNode.decorator mt expression).kindName)) :
        Except ConvError (Option ESNode × ASTMaps)) = .ok (r, m1) from hbody)
    | false =>
      rw [hcond] at hbody
      cases hsub : convertNode cfg (TSNode.decorator mt expression :: anc)
          none false expression m with
      | error err =>
        simp only [hsub] at hbody
        exact Except.noConfusion (show (Except.error err :
          Except ConvError (Option ESNode × ASTMaps)) = .ok (r, m1) from hbody)
      | ok p =>
        obtain ⟨rc, mc⟩ := p
        simp only [hsub] at hbody
        have hc : noSeqO rc = true :=
          convertNode_noSeq cfg (TSNode.decorator mt expression :: anc)
            none false expression m rc mc hsub
        have hfst := ok_fst hbody
        rw [hfst]
        apply noSeqO_createNode
        · left; exact ts_prefix_ne_seq _
        · exact noSeqFs_single _ _ (by rw [noSeqV_optNodeVal]; exact hc)
  | unknown mt kindName fields =>
    intro r m2 h
    simp only [convertNode] at h
    obtain ⟨m1, hbody⟩ := registerMaps_produced h
    cases hcond : (cfg.additionalOptions.errorOnUnknownASTType &&
        !(astNodeTypes.contains ("TS" ++ kindName))) with
    | true =>
      rw [hcond] at hbody
      exact Except.noConfusion (show (Except.error (ConvError.unknownASTType
        ("TS" ++ kindName)) :
        Except ConvError (Option ESNode × ASTMaps)) = .ok (r, m1) from hbody)
    | false =>
      rw [hcond] at hbody
      cases hsub : convertFields cfg (TSNode.unknown mt kindName fields :: anc)
          (TSNode.unknown mt kindName fields) fields m with
      | error err =>
        simp only [hsub] at hbody
        exact Except.noConfusion (show (Except.error err :
          Except ConvError (Option ESNode × ASTMaps)) = .ok (r, m1) from hbody)
      | ok p =>
        obtain ⟨efs, mc⟩ := p
        simp only [hsub] at hbody
        have hc : noSeqFs efs = true :=
          convertFields_noSeq cfg (TSNode.unknown mt kindName fields :: anc)
            (TSNode.unknown mt kindName fields) fields m efs mc hsub
        have hfst := ok_fst hbody
        rw [hfst]
        apply noSeqO_createNode
        · left; exact ts_prefix_ne_seq _
        · exact hc
termination_by structural n

theorem convertList_noSeq (cfg : ConverterState) (anc : List TSNode)
    (inTypeMode : Bool) (l : List TSNode) (m : ASTMaps) :
    ∀ rs m2, convertList cfg anc inTypeMode l m = .ok (rs, m2) →
      noSeqL rs = true := by
  cases l with
  | nil =>
    intro rs m2 h
    have hfst := ok_fst (show (Except.ok (([] : List (Option ESNode)), m) :
      Except ConvError (List (Option ESNode) × ASTMaps)) = .ok (rs, m2) from h)
    rw [hfst]; rfl
  | cons hd t =>
    intro rs m2 h
    simp only [convertList] at h
    cases hsub : convertNode cfg anc none inTypeMode hd m with
    | error err =>
      simp only [hsub] at h
      exact Except.noConfusion (show (Except.error err :
        Except ConvError (List (Option ESNode) × ASTMaps)) = .ok (rs, m2) from h)
    | ok p =>
      obtain ⟨r, mc⟩ := p
      simp only [hsub] at h
      have hr : noSeqO r = true :=
        convertNode_noSeq cfg anc none inTypeMode hd m r mc hsub
      cases hsub2 : convertList cfg anc inTypeMode t mc with
      | error err =>
        simp only [hsub2] at h
        exact Except.noConfusion (show (Except.error err :
          Except ConvError (List (Option ESNode) × ASTMaps)) = .ok (rs, m2) from h)
      | ok p2 =>
        obtain ⟨rs2, mc2⟩ := p2
        simp only [hsub2] at h
        have ht : noSeqL rs2 = true :=
          convertList_noSeq cfg anc inTypeMode t mc rs2 mc2 hsub2
        have hfst := ok_fst h
        rw [hfst, noSeqL_cons, hr, ht]
        rfl
termination_by structural l

theorem convertDecorators_noSeq (cfg : ConverterState) (anc : List TSNode)
    (l : List TSNode) (m : ASTMaps) :
    ∀ ds m2, convertDecorators cfg anc l m = .ok (ds, m2) →
      noSeqL (ds.map some) = true := by
  cases l with
  | nil =>
    intro ds m2 h
    have hfst := ok_fst (show (Except.ok (([] : List ESNode), m) :
      Except ConvError (List ESNode × ASTMaps)) = .ok (ds, m2) from h)
    rw [hfst]; rfl
  | cons d rest =>
    intro ds m2 h
    obtain ⟨r, mc, ds2, mc2, hrest, hds, hro'⟩ :=
      convertDecorators_cons_cases cfg anc d rest m ds m2 h
    have ht : noSeqL (ds2.map some) = true :=
      convertDecorators_noSeq cfg anc rest mc ds2 mc2 hrest
    have hro : noSeqO r = true := by
      rcases hro' with rfl | ⟨mt, expression, heqd, hconv⟩
      · rfl
      · cases d with
        | decorator mt2 e2 =>
          injection heqd with h1 h2
          subst h2
          exact convertNode_noSeq cfg anc none false e2 m r mc hconv
        | sourceFile a b c dd e => exact TSNode.noConfusion heqd
        | exprStmt a b => exact TSNode.noConfusion heqd
        | returnStmt a b => exact TSNode.noConfusion heqd
        | identifier a b => exact TSNode.noConfusion heqd
        | stringLit a b => exact TSNode.noConfusion heqd
        | bigIntLit a => exact TSNode.noConfusion heqd
        | arrayLit a b => exact TSNode.noConfusion heqd
        | binaryExpr a b c dd => exact TSNode.noConfusion heqd
        | callExpr a b c => exact TSNode.noConfusion heqd
        | paren a b => exact TSNode.noConfusion heqd
        | forIn a b c dd => exact TSNode.noConfusion heqd
        | forOf a b c dd e => exact TSNode.noConfusion heqd
        | unknown a b c => exact TSNode.noConfusion heqd
    rw [hds, List.map_cons, noSeqL_cons, ht]
    have hhd : noSeqO (some (createNode cfg d "Decorator"
        [("expression", optNodeVal r)])) = true := by
      apply noSeqO_createNode
      · left; rfl
      · exact noSeqFs_single _ _ (by rw [noSeqV_optNodeVal]; exact hro)
    rw [hhd]
    rfl
termination_by structural l

theorem convertFieldEntry_noSeq (cfg : ConverterState) (anc : List TSNode)
    (node : TSNode) (key : String) (v : TSVal) (m : ASTMaps) :
    ∀ entry m2, convertFieldEntry cfg anc node key v m = .ok (entry, m2) →
      noSeqFs entry = true := by
  cases v with
  | node child =>
    intro entry m2 h
    rcases convertFieldEntry_node_cases cfg anc node key child m entry m2 h with
      ⟨k, rfl⟩ | rfl | ⟨b, rc, mc, hc, hsh⟩
    · rfl
    · rfl
    · have hrc : noSeqO rc = true :=
        convertNode_noSeq cfg anc none b child m rc mc hc
      rcases hsh with rfl | ⟨rg, la, lb, rfl⟩
      · exact noSeqFs_single _ _ (by rw [noSeqV_optNodeVal]; exact hrc)
      · exact noSeqFs_single _ _
          (noSeqO_mkNode _ _ _ _ _ (Or.inl rfl)
            (noSeqFs_single _ _ (by rw [noSeqV_optNodeVal]; exact hrc)))
  | nodes pos endP l =>
    intro entry m2 h
    rcases convertFieldEntry_nodes_cases cfg anc node key pos endP l m entry m2 h with
      ⟨k, rfl⟩ | rfl | ⟨b, rs, mc, hl, hsh⟩ | ⟨rs, mc, hd, rfl⟩
    · rfl
    · rfl
    · have hrs : noSeqL rs = true := convertList_noSeq cfg anc b l m rs mc hl
      rcases hsh with rfl | ⟨ty, rg, la, lb, rfl, hty⟩
      · exact noSeqFs_single _ _ hrs
      · exact noSeqFs_single _ _
          (noSeqO_mkNode _ _ _ _ _ (Or.inl hty) (noSeqFs_single _ _ hrs))
    · have hrs : noSeqL (rs.map some) = true :=
        convertDecorators_noSeq cfg anc l m rs mc hd
      exact noSeqFs_single _ _ hrs
  | str s2 =>
    intro entry m2 h
    exact convertFieldEntry_scalar_noSeq cfg anc node key (.str s2) m trivial
      entry m2 h
  | boolV b =>
    intro entry m2 h
    exact convertFieldEntry_scalar_noSeq cfg anc node key (.boolV b) m trivial
      entry m2 h
  | numV i =>
    intro entry m2 h
    exact convertFieldEntry_scalar_noSeq cfg anc node key (.numV i) m trivial
      entry m2 h
  | undef =>
    intro entry m2 h
    exact convertFieldEntry_scalar_noSeq cfg anc node key .undef m trivial
      entry m2 h
termination_by structural v

theorem convertFields_noSeq (cfg : ConverterState) (anc : List TSNode)
    (node : TSNode) (fs : List (String × TSVal)) (m : ASTMaps) :
    ∀ efs m2, convertFields cfg anc node fs m = .ok (efs, m2) →
      noSeqFs efs = true := by
  cases fs with
  | nil =>
    intro efs m2 h
    have hfst := ok_fst (show (Except.ok (([] : List (String × EVal)), m) :
      Except ConvError (List (String × EVal) × ASTMaps)) = .ok (efs, m2) from h)
    rw [hfst]; rfl
  | cons kv rest =>
    intro efs m2 h
    obtain ⟨key, v⟩ := kv
    simp only [convertFields] at h
    cases hexcl : deeplyCopyExcludedKeys.contains key with
    | true =>
      rw [hexcl] at h
      have h2 : convertFields cfg anc node rest m = .ok (efs, m2) := h
      exact convertFields_noSeq cfg anc node rest m efs m2 h2
    | false =>
      rw [hexcl] at h
      cases hsub : convertFieldEntry cfg anc node key v m with
      | error err =>
        simp only [hsub] at h
        exact Except.noConfusion (show (Except.error err :
          Except ConvError (List (String × EVal) × ASTMaps)) = .ok (efs, m2) from h)
      | ok p =>
        obtain ⟨entry, mc⟩ := p
        simp only [hsub] at h
        have he : noSeqFs entry = true :=
          convertFieldEntry_noSeq cfg anc node key v m entry mc hsub
        cases hsub2 : convertFields cfg anc node rest mc with
        | error err =>
          simp only [hsub2] at h
          exact Except.noConfusion (show (Except.error err :
            Except ConvError (List (String × EVal) × ASTMaps)) = .ok (efs, m2) from h)
        | ok p2 =>
          obtain ⟨efs2, mc2⟩ := p2
          simp only [hsub2] at h
          have ht : noSeqFs efs2 = true :=
            convertFields_noSeq cfg anc node rest mc efs2 mc2 hsub2
          have hfst := ok_fst h
          rw [hfst, noSeqFs_append, he, ht]
          rfl
termination_by structural fs
end

/-- C5: a comma binary expression converts to a `SequenceExpression` whose
`expressions` list splices in the expressions of any operand that itself
converted to a sequence expression (instead of nesting it); consequently no
produced node — in particular no produced `SequenceExpression` — has an
immediate `expressions` element that is itself a `SequenceExpression`.
Concretely, `a, (b, c)` produces one flat three-element sequence. -/
theorem c5_sequence_flattening :
    (∀ (cfg : ConverterState) (anc : List TSNode) (parentOv : Option TSNode)
        (inTypeMode : Bool) (n : TSNode) (m : ASTMaps) (r : Option ESNode)
        (m2 : ASTMaps),
      convertNode cfg anc parentOv inTypeMode n m = .ok (r, m2) → noSeqO r = true)
    ∧ (∀ (cfg : ConverterState) (anc : List TSNode) (mt : NodeMeta) (tok : Tok)
        (left right : TSNode) (m : ASTMaps) (leftR rightR : Option ESNode)
        (m2 m3 : ASTMaps),
      isComma tok = true →
      convertNode cfg (TSNode.binaryExpr mt tok left right :: anc) none false left m
        = .ok (leftR, m2) →
      convertNode cfg (TSNode.binaryExpr mt tok left right :: anc) none false right m2
        = .ok (rightR, m3) →
      ∃ t mOut, convertNode cfg anc none false (.binaryExpr mt tok left right) m
          = .ok (some t, mOut)
        ∧ t.type = "SequenceExpression"
        ∧ t.getField "expressions"
            = some (.nodes (seqConcat (seqConcat [] leftR) rightR)))
    ∧ (match convertNode (plainState c5Code) [] none false c5Outer ASTMaps.empty with
       | .ok (some t, _) =>
         t.type = "SequenceExpression"
         ∧ (esSeqExpressions t).length = 3
         ∧ noSeqElems (esSeqExpressions t) = true
       | _ => False) := by
  refine ⟨?_, ?_, ?_⟩
  · intro cfg anc parentOv inTypeMode n m r m2 h
    exact convertNode_noSeq cfg anc parentOv inTypeMode n m r m2 h
  · intro cfg anc mt tok left right m leftR rightR m2 m3 hcomma hleft hright
    cases hsp : cfg.additionalOptions.shouldProvideParserServices with
    | false =>
      have hconv : convertNode cfg anc none false (.binaryExpr mt tok left right) m
          = .ok (some (createNode cfg (.binaryExpr mt tok left right)
              "SequenceExpression"
              [("expressions", .nodes (seqConcat (seqConcat [] leftR) rightR))]),
            m3) := by
        simp [convertNode, registerMaps, hcomma, hleft, hright, hsp]
      exact ⟨_, _, hconv, rfl, rfl⟩
    | true =>
      have hconv : convertNode cfg anc none false (.binaryExpr mt tok left right) m
          = .ok (some (createNode cfg (.binaryExpr mt tok left right)
                "SequenceExpression"
                [("expressions", .nodes (seqConcat (seqConcat [] leftR) rightR))]),
              insertASTMaps m3 (TSNode.binaryExpr mt tok left right).nodeId
                (createNode cfg (.binaryExpr mt tok left right) "SequenceExpression"
                  [("expressions",
                    .nodes (seqConcat (seqConcat [] leftR) rightR))])) := by
        simp [convertNode, registerMaps, hcomma, hleft, hright, hsp]
      exact ⟨_, _, hconv, rfl, rfl⟩
  · exact ⟨rfl, rfl, rfl⟩

theorem c5_sequence_flattening_witness :
    isComma (⟨.CommaToken, ⟨1, 1, 2⟩⟩ : Tok) = true
    ∧ ∃ t mOut, convertNode (plainState c5Code) [] none false c5Outer ASTMaps.empty
        = .ok (some t, mOut) ∧ t.type = "SequenceExpression" := by
  refine ⟨rfl, ?_⟩
  obtain ⟨t, mOut, heq, hty, -⟩ :=
    c5_sequence_flattening.2.1 (plainState c5Code) [] ⟨1, ⟨0, 0, 9⟩⟩
      ⟨.CommaToken, ⟨1, 1, 2⟩⟩ c5aIdent c5Paren ASTMaps.empty _ _ _ _ rfl rfl rfl
  exact ⟨t, mOut, heq, hty⟩

mutual
/-- The produced-node equality used for `WeakMap` lookup is reflexive. -/
theorem esNodeBEq_refl (e : ESNode) : esNodeBEq e e = true := by
  cases e with
  | mk t r ls le fs =>
    simp only [esNodeBEq, esFieldsBEq_refl fs]
    simp
termination_by structural e

theorem esFieldsBEq_refl (fs : List (String × EVal)) : esFieldsBEq fs fs = true := by
  cases fs with
  | nil => rfl
  | cons p rest =>
    obtain ⟨k, v⟩ := p
    simp only [esFieldsBEq, esValBEq_refl v, esFieldsBEq_refl rest]
    simp
termination_by structural fs

theorem esValBEq_refl (v : EVal) : esValBEq v v = true := by
  cases v with
  | nullV => rfl
  | undefV => rfl
  | boolV b => simp [esValBEq]
  | str s => simp [esValBEq]
  | numV i => simp [esValBEq]
  | node e => simp only [esValBEq, esNodeBEq_refl e]
  | nodes l => simp only [esValBEq, esOptListBEq_refl l]
termination_by structural v

theorem esOptListBEq_refl (l : List (Option ESNode)) : esOptListBEq l l = true := by
  cases l with
  | nil => rfl
  | cons o rest =>
    cases o with
    | none => simp only [esOptListBEq, esOptListBEq_refl rest]
    | some e =>
      simp only [esOptListBEq, esNodeBEq_refl e, esOptListBEq_refl rest]
      simp
termination_by structural l
end

/-- Registering a pair makes it the most recent insertion for both keys. -/
theorem tsNodeMapGet_insert (m : ASTMaps) (nid : Nat) (t : ESNode) :
    tsNodeMapGet (insertASTMaps m nid t).tsNodeToESTreeNodeMap nid = some t := by
  unfold tsNodeMapGet insertASTMaps
  rw [List.reverse_append]
  simp

theorem esNodeMapGet_insert (m : ASTMaps) (nid : Nat) (t : ESNode) :
    esNodeMapGet (insertASTMaps m nid t).esTreeNodeToTSNodeMap t = some nid := by
  unfold esNodeMapGet insertASTMaps
  rw [List.reverse_append]
  simp [esNodeBEq_refl t]

/-- When parser services are on, a successful conversion ends by inserting the
pair for its own node into both maps — on the finalized node, as the last
write of the call. -/
theorem registerMaps_some {cfg : ConverterState} {n : TSNode}
    {res : Except ConvError (Option ESNode × ASTMaps)} {t : ESNode} {m2 : ASTMaps}
    (hsp : cfg.additionalOptions.shouldProvideParserServices = true)
    (h : registerMaps cfg n res = .ok (some t, m2)) :
    ∃ m1, res = .ok (some t, m1) ∧ m2 = insertASTMaps m1 n.nodeId t := by
  cases res with
  | error e => simp [registerMaps] at h
  | ok p =>
    obtain ⟨result, m1⟩ := p
    cases result with
    | some t2 =>
      simp [registerMaps, hsp] at h
      obtain ⟨h1, h2⟩ := h
      refine ⟨m1, ?_, ?_⟩
      · rw [h1]
      · rw [← h2, h1]
    | none =>
      simp [registerMaps] at h

/-- C2 (amended): when service mode is active, every successful conversion
call that produces a node `t` from native node `n` ends by inserting the pair
into both correspondence maps — immediately after `t` is finalized, as the
call's last write and never before — so that, right after the call, looking up
`n` in the native-to-target map returns `t` and looking up `t` in the
target-to-native map returns `n`.  (A later conversion step may re-register
the same produced node under another native node — the parenthesized
expression pass-through does — so the target-to-native direction is only
guaranteed for the most recent producer of `t`.) -/
theorem c2_correspondence_maps (cfg : ConverterState) (anc : List TSNode)
    (parentOv : Option TSNode) (inTypeMode : Bool) (n : TSNode) (m : ASTMaps)
    (t : ESNode) (m2 : ASTMaps)
    (hsp : cfg.additionalOptions.shouldProvideParserServices = true)
    (h : convertNode cfg anc parentOv inTypeMode n m = .ok (some t, m2)) :
    ∃ m1, m2 = insertASTMaps m1 n.nodeId t
      ∧ tsNodeMapGet m2.tsNodeToESTreeNodeMap n.nodeId = some t
      ∧ esNodeMapGet m2.esTreeNodeToTSNodeMap t = some n.nodeId := by
  have hreg : ∃ m1, m2 = insertASTMaps m1 n.nodeId t := by
    cases n
    case returnStmt mt expression =>
      cases expression <;>
        (simp only [convertNode] at h
         obtain ⟨m1, hres, hm2⟩ := registerMaps_some hsp h
         exact ⟨m1, hm2⟩)
    all_goals
      (simp only [convertNode] at h
       obtain ⟨m1, hres, hm2⟩ := registerMaps_some hsp h
       exact ⟨m1, hm2⟩)
  obtain ⟨m1, hm2⟩ := hreg
  refine ⟨m1, hm2, ?_, ?_⟩
  · rw [hm2]; exact tsNodeMapGet_insert m1 n.nodeId t
  · rw [hm2]; exact esNodeMapGet_insert m1 n.nodeId t

theorem c2_correspondence_maps_witness :
    (serviceState "a").additionalOptions.shouldProvideParserServices = true
    ∧ ∃ t m2, convertNode (serviceState "a") [] none false w2Ident ASTMaps.empty
        = .ok (some t, m2)
      ∧ tsNodeMapGet m2.tsNodeToESTreeNodeMap w2Ident.nodeId = some t
      ∧ esNodeMapGet m2.esTreeNodeToTSNodeMap t = some w2Ident.nodeId := by
  refine ⟨rfl, ?_⟩
  obtain ⟨m1, hm2, hts, hes⟩ := c2_correspondence_maps (serviceState "a") [] none
    false w2Ident ASTMaps.empty _ _ rfl rfl
  exact ⟨_, _, rfl, hts, hes⟩

/-- On input `(a);` with services on, the parenthesized-expression rule
re-registers the identifier's produced node under the paren's native id, so
looking up that produced node in the target-to-native map returns the paren
(id 2), not the identifier that produced it (id 3). -/
theorem c2_correspondence_maps_counterexample :
    (match convertNode (serviceState c2Code) [] none false c2Sf ASTMaps.empty with
     | .ok (_, m2) =>
       (match tsNodeMapGet m2.tsNodeToESTreeNodeMap 3 with
        | some tIdent => esNodeMapGet m2.esTreeNodeToTSNodeMap tIdent = some 2
        | none => False)
     | _ => False)
    ∧ (2 : Nat) ≠ 3 := by
  exact ⟨rfl, by decide⟩

theorem c9_boolean_option_normalization_witness :
    ((generateASTExtraTs "x" (some c9Options)).range = true
      ↔ c9Options.range = .boolV true)
    ∧ ((generateASTExtraJs (some c9Options)).loc = true
      ↔ c9Options.loc = .boolV true) :=
  ⟨(c9_boolean_option_normalization c9Options "x").1,
    (c9_boolean_option_normalization c9Options "x").2.2.2.2.2.2.2.1⟩
